import Mathlib

/-!
# Verification of the cocoa-news scraping pipeline (`scraping.py`)

A shallow embedding of the pure core of the scraper: date-range URL
enumeration (`generate_date_urls`), listing-page extraction
(`get_articles_from_listing_page`), article content extraction
(`get_article_content`), the text normalizer (`clean_text`) and the
DataFrame cleanup / sentiment stage (`clean_dataframe_add_sentiment`).

Text is modelled as `List Nat` of Unicode code points.  External
collaborators (the Unicode NFKD normalizer, the HTTP transport, the HTML
parser's tree, the sentiment lexicon) are passed in explicitly as
parameters or as already-produced values, exactly at the boundaries where
the script calls into `unicodedata`, `requests`, `BeautifulSoup` and
`nltk`.
-/

/-- Convert a Lean string literal to the code-point list representation
used throughout this development. -/
def str (s : String) : List Nat := s.toList.map Char.toNat

/-- Python's `\s` character class on `str` patterns: the Unicode
whitespace code points, as matched by `re` in Unicode mode and stripped
by `str.strip()`. -/
def isPySpace (n : Nat) : Bool :=
  (9 ≤ n && n ≤ 13) || (28 ≤ n && n ≤ 31) || n == 32 || n == 133 || n == 160 ||
  n == 0x1680 || (0x2000 ≤ n && n ≤ 0x200A) || n == 0x2028 || n == 0x2029 ||
  n == 0x202F || n == 0x205F || n == 0x3000

/-- `[a-zA-Z]`: an ASCII letter. -/
def isAsciiAlpha (n : Nat) : Bool :=
  (65 ≤ n && n ≤ 90) || (97 ≤ n && n ≤ 122)

/-- `[0-9]`: an ASCII digit. -/
def isAsciiDigit (n : Nat) : Bool := 48 ≤ n && n ≤ 57

/-- `[a-zA-Z0-9]`: an ASCII letter or digit. -/
def isAsciiAlnum (n : Nat) : Bool := isAsciiAlpha n || isAsciiDigit n

/-- `re.sub(r'&[a-zA-Z]+;', ' ', text)` (scraping.py line 117): left-to-right
scan; at a `&` followed by one or more ASCII letters and then `;`, the
whole match is replaced by one space and scanning resumes after it;
otherwise the character is kept and scanning advances one position. -/
def stripEntitiesAux : Nat → List Nat → List Nat
  | _, [] => []
  | skip + 1, _ :: rest => stripEntitiesAux skip rest
  | 0, c :: rest =>
    if c == 38 then
      match rest.dropWhile isAsciiAlpha with
      | 59 :: _ =>
        if (rest.takeWhile isAsciiAlpha).length == 0 then c :: stripEntitiesAux 0 rest
        else 32 :: stripEntitiesAux ((rest.takeWhile isAsciiAlpha).length + 1) rest
      | _ => c :: stripEntitiesAux 0 rest
    else c :: stripEntitiesAux 0 rest

/-- Entry point of the entity scan: start with nothing to skip. -/
def stripEntities (s : List Nat) : List Nat := stripEntitiesAux 0 s

/-- Length of the match of `http\S+|www\.\S+` (scraping.py line 120) at the
head of `s`, or `0` when neither alternative matches there.  `\S+` is
greedy: the match extends over the maximal run of non-whitespace
characters and must be non-empty. -/
def urlMatchLen (s : List Nat) : Nat :=
  match s with
  | 104 :: 116 :: 116 :: 112 :: rest =>
    let run := (rest.takeWhile (fun c => !isPySpace c)).length
    if run == 0 then 0 else 4 + run
  | 119 :: 119 :: 119 :: 46 :: rest =>
    let run := (rest.takeWhile (fun c => !isPySpace c)).length
    if run == 0 then 0 else 4 + run
  | _ => 0

/-- `re.sub(r'http\S+|www\.\S+', '', text)` (scraping.py line 120):
left-to-right scan, each match replaced by the empty string. -/
def stripUrlsAux : Nat → List Nat → List Nat
  | _, [] => []
  | skip + 1, _ :: rest => stripUrlsAux skip rest
  | 0, c :: rest =>
    let n := urlMatchLen (c :: rest)
    if n == 0 then c :: stripUrlsAux 0 rest
    else stripUrlsAux (n - 1) rest

/-- Entry point of the URL scan: start with nothing to skip. -/
def stripUrls (s : List Nat) : List Nat := stripUrlsAux 0 s

/-- `re.sub(r'[^a-zA-Z0-9\s]', ' ', text)` (scraping.py line 123): every
character that is neither ASCII alphanumeric nor whitespace becomes a
space. -/
def stripSpecial (s : List Nat) : List Nat :=
  s.map (fun c => if isAsciiAlnum c || isPySpace c then c else 32)

/-- `re.sub(r'\s+', ' ', text)` (scraping.py line 126): each maximal run
of whitespace collapses to a single space.  Implemented one character at
a time: a whitespace character followed by another whitespace character
emits nothing; the last character of a run emits one space. -/
def collapseWs : List Nat → List Nat
  | [] => []
  | [c] => [if isPySpace c then 32 else c]
  | c1 :: c2 :: rest =>
    if isPySpace c1 && isPySpace c2 then collapseWs (c2 :: rest)
    else (if isPySpace c1 then 32 else c1) :: collapseWs (c2 :: rest)

/-- ASCII lowercasing of one code point.  `str.lower()` (scraping.py
line 129) performs full Unicode lowercasing; in `clean_text` it is
applied after the character-class and whitespace substitutions, whose
output provably contains only ASCII alphanumerics and spaces, on which
the Unicode and ASCII mappings agree. -/
def asciiLower (n : Nat) : Nat := if 65 ≤ n && n ≤ 90 then n + 32 else n

/-- `str.lower()` applied code point by code point. -/
def pyLower (s : List Nat) : List Nat := s.map asciiLower

/-- `str.strip()` (scraping.py line 132): remove leading and trailing
whitespace. -/
def pyStrip (s : List Nat) : List Nat :=
  ((s.dropWhile isPySpace).reverse.dropWhile isPySpace).reverse

/-- The body of `clean_text` on an actual string (scraping.py lines
113-134), parameterized by the external Unicode NFKD normalizer `nfkd`
(the call `unicodedata.normalize('NFKD', text)` on line 114). -/
def clean_text_str (nfkd : List Nat → List Nat) (s : List Nat) : List Nat :=
  pyStrip (pyLower (collapseWs (stripSpecial (stripUrls (stripEntities (nfkd s))))))

/-- A dynamically typed Python value, as far as `clean_text`'s
`isinstance(text, str)` test distinguishes them. -/
inductive PyValue where
  | pyStr (s : List Nat)
  | pyNone
  | pyInt (n : Int)
  deriving DecidableEq

/-- `clean_text` (scraping.py lines 99-134): non-string input yields the
empty string (lines 110-111); a string goes through the normalization
pipeline. -/
def clean_text (nfkd : List Nat → List Nat) : PyValue → List Nat
  | .pyStr s => clean_text_str nfkd s
  | .pyNone => []
  | .pyInt _ => []

/-- Unicode NFKD leaves every ASCII code point in place; any faithful
model `nfkd` of `unicodedata.normalize('NFKD', ·)` therefore fixes
all-ASCII strings. -/
def FixesAscii (nfkd : List Nat → List Nat) : Prop :=
  ∀ s : List Nat, (∀ c ∈ s, c < 128) → nfkd s = s

/-- The character set `[a-z0-9 ]` the spec promises for `clean_text`
output. -/
def isOutputChar (n : Nat) : Bool :=
  (97 ≤ n && n ≤ 122) || isAsciiDigit n || n == 32

/-- Does the URL pattern `http\S+|www\.\S+` match anywhere in `s`? -/
def hasUrlMatch : List Nat → Bool
  | [] => false
  | c :: rest => (urlMatchLen (c :: rest) != 0) || hasUrlMatch rest

/-- No two adjacent characters of `s` are both whitespace. -/
def NoTwoSpaces (s : List Nat) : Prop :=
  List.Chain' (fun a b => isPySpace a = false ∨ isPySpace b = false) s

/-- The canonical form produced by `clean_text`: only `[a-z0-9 ]`
characters, single spaces, no leading or trailing space. -/
def Cleaned (s : List Nat) : Prop :=
  (∀ c ∈ s, isOutputChar c = true) ∧ NoTwoSpaces s ∧
    s.head? ≠ some 32 ∧ s.getLast? ≠ some 32

/-! ## Dates and `generate_date_urls` -/

/-- Gregorian leap year, as CPython's `datetime` module computes it. -/
def isLeapYear (y : Nat) : Bool := (y % 4 == 0 && y % 100 != 0) || y % 400 == 0

/-- Length of a month of the proleptic Gregorian calendar. -/
def daysInMonth (y m : Nat) : Nat :=
  if m = 2 then (if isLeapYear y then 29 else 28)
  else if m = 4 ∨ m = 6 ∨ m = 9 ∨ m = 11 then 30
  else 31

/-- A Python `datetime` date value: a valid proleptic Gregorian calendar
date.  CPython enforces all of these bounds at construction, including
`year ≤ 9999` (`datetime.MAXYEAR`). -/
structure Date where
  year : Nat
  month : Nat
  day : Nat
  year_pos : 1 ≤ year
  year_le : year ≤ 9999
  month_ge : 1 ≤ month
  month_le : month ≤ 12
  day_ge : 1 ≤ day
  day_le : day ≤ daysInMonth year month
  deriving DecidableEq

/-- `current_date += timedelta(days=1)` (scraping.py line 22).  CPython
computes `fromordinal(toordinal + 1)` and raises `OverflowError` when the
result would pass `datetime.MAXYEAR`, i.e. exactly on 9999-12-31;
`none` models that raise. -/
def nextDay (d : Date) : Option Date :=
  if h1 : d.day < daysInMonth d.year d.month then
    some ⟨d.year, d.month, d.day + 1, d.year_pos, d.year_le, d.month_ge,
      d.month_le, by omega, h1⟩
  else if h2 : d.month < 12 then
    some ⟨d.year, d.month + 1, 1, d.year_pos, d.year_le, by omega, by omega,
      le_refl 1, by
        unfold daysInMonth
        split_ifs <;> omega⟩
  else if h3 : d.year < 9999 then
    some ⟨d.year + 1, 1, 1, by omega, by omega, le_refl 1, by omega,
      le_refl 1, by
        unfold daysInMonth
        split_ifs <;> omega⟩
  else none

/-- The last representable date, `datetime.MAXYEAR`-12-31: the one date
on which `current_date += timedelta(days=1)` raises. -/
def dmax : Date :=
  ⟨9999, 12, 31, by omega, le_refl 9999, by omega, le_refl 12, by omega, by
    unfold daysInMonth
    split_ifs <;> omega⟩

/-- CPython `datetime._days_before_year(y)`: days between year 1 and the
start of year `y`. -/
def daysBeforeYear (y : Nat) : Nat :=
  (y - 1) * 365 + (y - 1) / 4 - (y - 1) / 100 + (y - 1) / 400

/-- CPython `datetime._days_before_month(y, m)`: days in year `y` before
the start of month `m`, as the running sum of month lengths. -/
def daysBeforeMonth (y : Nat) : Nat → Nat
  | 0 => 0
  | 1 => 0
  | m + 1 => daysBeforeMonth y m + daysInMonth y m

/-- CPython `date.toordinal()`: day number in the proleptic Gregorian
calendar, with day 1 = January 1 of year 1.  Python's
`(end - start).days` equals `end.toordinal() - start.toordinal()`. -/
def toordinal (d : Date) : Nat :=
  daysBeforeYear d.year + daysBeforeMonth d.year d.month + d.day

/-- Python `datetime` comparison `current_date <= end_date`
(scraping.py line 18): lexicographic on (year, month, day). -/
def dateLE (a b : Date) : Bool :=
  a.year < b.year || (a.year == b.year &&
    (a.month < b.month || (a.month == b.month && a.day ≤ b.day)))

/-- The fixed URL template of scraping.py line 20, up to the interpolated
date key. -/
def urlPrefix : List Nat :=
  str "https://www.ghanaweb.com/GhanaHomePage/business/browse.archive.php?date="

/-- `w`-digit zero-padded decimal rendering, most significant digit
first: the `%Y` (w = 4), `%m` and `%d` (w = 2) fields of
`strftime("%Y%m%d")` (scraping.py line 19). -/
def padNat : Nat → Nat → List Nat
  | 0, _ => []
  | w + 1, n => (48 + n / 10 ^ w % 10) :: padNat w n

/-- `current_date.strftime("%Y%m%d")` (scraping.py line 19): the 8-digit
date key.  `%Y` is rendered 4-digit zero-padded; C `strftime`
implementations disagree on the padding of years below 1000 (glibc pads
with nothing, bpo-13305), so theorems about the key's shape assume
`1000 ≤ year`, where every platform agrees. -/
def dateKey (d : Date) : List Nat :=
  padNat 4 d.year ++ padNat 2 d.month ++ padNat 2 d.day

/-- The listing URL built for one day (scraping.py line 20). -/
def urlFor (d : Date) : List Nat := urlPrefix ++ dateKey d

/-- `generate_date_urls` (scraping.py lines 13-24): one (date key, URL)
pair per day of the closed interval, in order.  The loop appends the
current day's pair and then increments; the increment raises
`OverflowError` when the current day is 9999-12-31, and the function has
no handler, so the exception propagates and nothing is returned —
modelled by `none`. -/
def generate_date_urls (start_date end_date : Date) :
    Option (List (List Nat × List Nat)) :=
  if dateLE start_date end_date then
    match h : nextDay start_date with
    | none => none
    | some next => (generate_date_urls next end_date).map
        ((dateKey start_date, urlFor start_date) :: ·)
  else some []
termination_by (end_date.year + 1 - start_date.year) * 500 +
  (12 - start_date.month) * 40 + (32 - start_date.day)
decreasing_by
  have hle : dateLE start_date end_date = true := by assumption
  have hy : start_date.year ≤ end_date.year := by
    simp only [dateLE, Bool.or_eq_true, Bool.and_eq_true, decide_eq_true_eq,
      beq_iff_eq] at hle
    omega
  have hm1 := start_date.month_ge
  have hm2 := start_date.month_le
  have hd1 := start_date.day_ge
  have hdim : daysInMonth start_date.year start_date.month ≤ 31 := by
    unfold daysInMonth
    split_ifs <;> omega
  unfold nextDay at h
  split_ifs at h with h1 h2 h3
  all_goals
    injection h with h4
    subst h4
    dsimp only
    omega

/-- Numeric value of a decimal digit string (digits as code points). -/
def keyVal (s : List Nat) : Nat := s.foldl (fun a c => a * 10 + (c - 48)) 0

/-- Number of occurrences of `pat` as a contiguous substring of `s`
(counting one candidate start position per character). -/
def countOccs (pat : List Nat) : List Nat → Nat
  | [] => if pat = [] then 1 else 0
  | c :: rest => (if pat.isPrefixOf (c :: rest) then 1 else 0) + countOccs pat rest

/-- Concrete start date 2024-02-28 for the C2 witness. -/
def witnessStart : Date :=
  ⟨2024, 2, 28, by decide, by decide, by decide, by decide, by decide, by decide⟩

/-- Concrete end date 2024-03-01 for the C2 witness (the range crosses a
leap-year February). -/
def witnessEnd : Date :=
  ⟨2024, 3, 1, by decide, by decide, by decide, by decide, by decide, by decide⟩

/-! ## HTML trees and the BeautifulSoup queries used by the scraper -/

/-- A parsed HTML tree, as produced by the external parser collaborator
(`BeautifulSoup(response.text, 'html.parser')`): elements with a tag
name, attributes and children, and text nodes. -/
inductive Node where
  | element (tag : List Nat) (attrs : List (List Nat × List Nat)) (children : List Node)
  | text (s : List Nat)

mutual

/-- Decidable equality of HTML nodes (needed so that concrete witness
pages can be checked by evaluation). -/
def nodeDecEq : (a b : Node) → Decidable (a = b)
  | .text s, .text t =>
    match decEq s t with
    | isTrue h => isTrue (by rw [h])
    | isFalse h => isFalse (fun hc => by injection hc with h1; exact h h1)
  | .text _, .element _ _ _ => isFalse (fun hc => by cases hc)
  | .element _ _ _, .text _ => isFalse (fun hc => by cases hc)
  | .element t1 a1 c1, .element t2 a2 c2 =>
    match decEq t1 t2 with
    | isFalse h => isFalse (fun hc => by injection hc with h1 h2 h3; exact h h1)
    | isTrue h1 =>
      match decEq a1 a2 with
      | isFalse h => isFalse (fun hc => by injection hc with h1 h2 h3; exact h h2)
      | isTrue h2 =>
        match nodeListDecEq c1 c2 with
        | isFalse h => isFalse (fun hc => by injection hc with h1 h2 h3; exact h h3)
        | isTrue h3 => isTrue (by rw [h1, h2, h3])

/-- Decidable equality of lists of HTML nodes. -/
def nodeListDecEq : (a b : List Node) → Decidable (a = b)
  | [], [] => isTrue rfl
  | [], _ :: _ => isFalse (fun hc => by cases hc)
  | _ :: _, [] => isFalse (fun hc => by cases hc)
  | x :: xs, y :: ys =>
    match nodeDecEq x y with
    | isFalse h => isFalse (fun hc => by injection hc with h1 h2; exact h h1)
    | isTrue h1 =>
      match nodeListDecEq xs ys with
      | isFalse h => isFalse (fun hc => by injection hc with h1 h2; exact h h2)
      | isTrue h2 => isTrue (by rw [h1, h2])

end

instance : DecidableEq Node := nodeDecEq

/-- The attribute list of a node (text nodes have none). -/
def attrsOf : Node → List (List Nat × List Nat)
  | .element _ a _ => a
  | .text _ => []

/-- Attribute lookup, as `tag['name']` / `tag.has_attr('name')`. -/
def getAttr (n : Node) (name : List Nat) : Option (List Nat) :=
  ((attrsOf n).find? (fun p => p.1 == name)).map Prod.snd

/-- Does the node carry the given tag name? -/
def hasTag (n : Node) (tag : List Nat) : Bool :=
  match n with
  | .element t _ _ => t == tag
  | .text _ => false

/-- Whitespace-splitting of an attribute value into its tokens (the
multi-valued `class` attribute as BeautifulSoup sees it). -/
def splitWsAux : List Nat → List Nat → List (List Nat)
  | acc, [] => if acc = [] then [] else [acc.reverse]
  | acc, c :: rest =>
    if isPySpace c then
      if acc = [] then splitWsAux [] rest
      else acc.reverse :: splitWsAux [] rest
    else splitWsAux (c :: acc) rest

/-- Split a string on whitespace, dropping empty tokens. -/
def splitWs (s : List Nat) : List (List Nat) := splitWsAux [] s

/-- BeautifulSoup `class_=query` matching: the query matches if it
equals one of the space-separated class tokens, or the exact full
attribute string (the only possibility when the query itself contains a
space, as with `'left_artl_list more_news'`). -/
def classMatches (n : Node) (query : List Nat) : Bool :=
  match getAttr n (str "class") with
  | none => false
  | some v => v == query || (splitWs v).contains query

mutual

/-- A node and all its descendants satisfying `p`, in document
(pre-order) order. -/
def findAllNode (p : Node → Bool) : Node → List Node
  | .element t a ch =>
    (if p (.element t a ch) then [Node.element t a ch] else []) ++
      findAllList p ch
  | .text s => if p (.text s) then [Node.text s] else []

/-- All of the listed nodes and their descendants satisfying `p`, in
document (pre-order) order: BeautifulSoup `find_all`. -/
def findAllList (p : Node → Bool) : List Node → List Node
  | [] => []
  | n :: rest => findAllNode p n ++ findAllList p rest

end

/-- The children of a node. -/
def childrenOf : Node → List Node
  | .element _ _ ch => ch
  | .text _ => []

/-- `tag.find_all(p)`: every matching descendant of `n`, in document
order (the node itself is not a candidate, as in BeautifulSoup). -/
def findAll (n : Node) (p : Node → Bool) : List Node :=
  findAllList p (childrenOf n)

/-- `tag.find(p)`: the first matching descendant, if any
(BeautifulSoup's `find` is `find_all` limited to one result). -/
def findFirst (n : Node) (p : Node → Bool) : Option Node :=
  (findAll n p).head?

/-- An article dictionary as built by the listing stage (scraping.py
lines 53-57): date key, title and url. -/
structure ArticleRef where
  date : List Nat
  title : List Nat
  url : List Nat
  deriving DecidableEq

/-- The site's fixed origin prefixed to relative hrefs
(scraping.py line 56). -/
def siteOrigin : List Nat := str "https://www.ghanaweb.com"

/-- Is `pat` a contiguous substring of `s`? -/
def isSubstring (pat : List Nat) : List Nat → Bool
  | [] => pat.isPrefixOf []
  | c :: rest => pat.isPrefixOf (c :: rest) || isSubstring pat rest

/-- `re.search(r'cocoa', title, re.IGNORECASE)` (scraping.py line 52):
case-insensitive substring search, no word boundary.  The pattern is
plain ASCII, so `IGNORECASE` is ASCII lowercasing here. -/
def titleMatches (title : List Nat) : Bool :=
  isSubstring (str "cocoa") (pyLower title)

/-- Step 1 of the listing extraction (scraping.py line 37):
`soup.find('div', class_='left_artl_list more_news')`. -/
def findArticleContainer (soup : Node) : Option Node :=
  findFirst soup (fun n => hasTag n (str "div") &&
    classMatches n (str "left_artl_list more_news"))

/-- Step 2 (scraping.py line 41): `article_container.find('div',
class_='upper')`. -/
def findUpperDiv (container : Node) : Option Node :=
  findFirst container (fun n => hasTag n (str "div") &&
    classMatches n (str "upper"))

/-- Step 3 (scraping.py line 43): `upper_div.find('ul')`. -/
def findArticleList (upper : Node) : Option Node :=
  findFirst upper (fun n => hasTag n (str "ul"))

/-- Per-item body of the loop of scraping.py lines 45-57: the first
anchor of the list item, its `title`/`href` attributes, the keyword
filter, and href absolutization. -/
def itemToRef (date_str : List Nat) (item : Node) : Option ArticleRef :=
  match findFirst item (fun n => hasTag n (str "a")) with
  | none => none
  | some link =>
    match getAttr link (str "href"), getAttr link (str "title") with
    | some href, some title =>
      if titleMatches title then
        some { date := date_str, title := title,
               url := if (str "http").isPrefixOf href then href
                      else siteOrigin ++ href }
      else none
    | _, _ => none

/-- `get_articles_from_listing_page` (scraping.py lines 26-61), from the
point where the network fetch and parse have produced an outcome:
`.error` is an exception in the `try` block (caught on line 58, so the
articles accumulated so far — none — are returned), `.ok` is the parsed
soup. -/
def get_articles_from_listing_page (fetched : Except (List Nat) Node)
    (date_str : List Nat) : List ArticleRef :=
  match fetched with
  | .error _ => []
  | .ok soup =>
    match findArticleContainer soup with
    | none => []
    | some container =>
      match findUpperDiv container with
      | none => []
      | some upper_div =>
        match findArticleList upper_div with
        | none => []
        | some article_list =>
          (findAll article_list (fun n => hasTag n (str "li"))).filterMap
            (itemToRef date_str)

/-- An article dictionary after the content stage: the listing fields
plus the `content` key filled in by `get_article_content`. -/
structure ArticleRecord where
  date : List Nat
  title : List Nat
  url : List Nat
  content : List Nat
  deriving DecidableEq

mutual

/-- The text fragments below one node, in document order. -/
def textFragmentsNode : Node → List (List Nat)
  | .text s => [s]
  | .element _ _ ch => textFragmentsList ch

/-- The text fragments of a list of nodes, in document order. -/
def textFragmentsList : List Node → List (List Nat)
  | [] => []
  | n :: rest => textFragmentsNode n ++ textFragmentsList rest

end

/-- `tag.get_text(strip=True)`: the concatenation of the individually
stripped text fragments below the node (empty fragments contribute
nothing). -/
def getTextStrip (n : Node) : List Nat :=
  match n with
  | .text s => pyStrip s
  | .element _ _ ch => ((textFragmentsList ch).map pyStrip).flatten

/-- `' '.join(xs)`. -/
def joinSpace : List (List Nat) → List Nat
  | [] => []
  | [x] => x
  | x :: y :: rest => x ++ 32 :: joinSpace (y :: rest)

/-- `get_article_content` (scraping.py lines 63-97), from the point
where `requests.get` + `BeautifulSoup` have produced an outcome: an
exception is caught on line 93 and recorded as an error-sentinel
content; otherwise the primary selector `p#article-123` is tried, then
the fallback `div.article-content-area` with its paragraphs joined by
single spaces, then the "Content not found" sentinel. -/
def get_article_content (fetched : Except (List Nat) Node)
    (article_info : ArticleRecord) : ArticleRecord :=
  match fetched with
  | .error e => { article_info with content := str "Error: " ++ e }
  | .ok soup =>
    match findFirst soup (fun n => hasTag n (str "p") &&
        getAttr n (str "id") == some (str "article-123")) with
    | some article_paragraph =>
      { article_info with content := getTextStrip article_paragraph }
    | none =>
      match findFirst soup (fun n => hasTag n (str "div") &&
          classMatches n (str "article-content-area")) with
      | some article_div =>
        match findAll article_div (fun n => hasTag n (str "p")) with
        | [] => { article_info with content := str "Content not found" }
        | p0 :: ps =>
          { article_info with
            content := joinSpace ((p0 :: ps).map getTextStrip) }
      | none => { article_info with content := str "Content not found" }

/-- Modelled from the spec for the refinement comparison only: "href
already starts with a scheme" — a URI scheme per RFC 3986,
`ALPHA *( ALPHA / DIGIT / "+" / "-" / "." ) ":"`. -/
def schemeTail : List Nat → Bool
  | [] => false
  | c :: rest =>
    if c == 58 then true
    else (isAsciiAlnum c || c == 43 || c == 45 || c == 46) && schemeTail rest

/-- Modelled from the spec for the refinement comparison only: does the
string start with a URI scheme? -/
def startsWithScheme (s : List Nat) : Bool :=
  match s with
  | [] => false
  | c :: rest => isAsciiAlpha c && schemeTail rest

/-! ## The DataFrame stage -/

/-- A row of the scraper's DataFrame after the driver's column reorder
(scraping.py line 210): date, title, content, url, plus the
`sentiment_score` column added by `clean_dataframe_add_sentiment`
(`none` while the column is absent).  `α` is the score type of the
external sentiment collaborator. -/
structure PdRow (α : Type) where
  date : List Nat
  title : List Nat
  content : List Nat
  url : List Nat
  sentiment_score : Option α
  deriving DecidableEq

/-- A pandas DataFrame: the index labels plus the rows, aligned by
position. -/
structure DataFrame (α : Type) where
  index : List Nat
  rows : List (PdRow α)
  deriving DecidableEq

/-- Dereference (out-of-range references yield an empty frame). -/
def heapGet {α : Type} (h : List (DataFrame α)) (r : Nat) : DataFrame α := h.getD r ⟨[], []⟩

/-- Overwrite the object a reference points to (in-place mutation). -/
def heapSet {α : Type} (h : List (DataFrame α)) (r : Nat) (d : DataFrame α) : List (DataFrame α) :=
  h.set r d

/-- Allocate a fresh object, returning the extended heap and its
reference. -/
def heapAlloc {α : Type} (h : List (DataFrame α)) (d : DataFrame α) : List (DataFrame α) × Nat :=
  (h ++ [d], h.length)

/-- `df.copy()` (scraping.py line 147): allocate a copy. -/
def pdCopy {α : Type} (h : List (DataFrame α)) (r : Nat) : List (DataFrame α) × Nat :=
  heapAlloc h (heapGet h r)

/-- `cleaned_df['title'] = cleaned_df['title'].apply(f)` (line 152):
in-place transformation of the title column.  The driver reorders the
DataFrame to exactly the columns date/title/content/url (line 210), so
the `if 'title' in cleaned_df.columns` guard of line 151 is always
satisfied here. -/
def pdApplyTitle {α : Type} (f : List Nat → List Nat) (h : List (DataFrame α)) (r : Nat) :
    List (DataFrame α) :=
  heapSet h r { heapGet h r with
    rows := (heapGet h r).rows.map (fun row => { row with title := f row.title }) }

/-- `cleaned_df['content'] = cleaned_df['content'].apply(f)` (line 156),
under the always-true guard of line 155. -/
def pdApplyContent {α : Type} (f : List Nat → List Nat) (h : List (DataFrame α)) (r : Nat) :
    List (DataFrame α) :=
  heapSet h r { heapGet h r with
    rows := (heapGet h r).rows.map (fun row => { row with content := f row.content }) }

/-- `cleaned_df[cleaned_df['content'].str.strip() != '']` (line 159):
boolean-mask filtering keeps the matching rows together with their index
labels and yields a new DataFrame object. -/
def pdFilterContent {α : Type} (d : DataFrame α) : DataFrame α :=
  { index := ((d.index.zip d.rows).filter
      (fun q => !(pyStrip q.2.content == []))).map Prod.fst,
    rows := ((d.index.zip d.rows).filter
      (fun q => !(pyStrip q.2.content == []))).map Prod.snd }

/-- `cleaned_df.reset_index(drop=True)` (line 162): a new object with
the labels renumbered from 0. -/
def pdResetIndex {α : Type} (d : DataFrame α) : DataFrame α :=
  { index := List.range d.rows.length, rows := d.rows }

/-- `cleaned_df['sentiment_score'] = cleaned_df['content'].apply(lambda
x: sia.polarity_scores(str(x))['compound'])` (lines 164-166), with the
external SentimentIntensityAnalyzer as the collaborator `polarity`;
`str(x)` on the string-valued content column is the identity. -/
def pdAddSentiment {α : Type} (polarity : List Nat → α) (h : List (DataFrame α)) (r : Nat) :
    List (DataFrame α) :=
  heapSet h r { heapGet h r with
    rows := (heapGet h r).rows.map
      (fun row => { row with sentiment_score := some (polarity row.content) }) }

/-- `clean_dataframe_add_sentiment` (scraping.py lines 136-168) in
heap-passing form, so that Python's object identities — and hence the
claim that the argument DataFrame is never mutated — are expressible.
Local rebindings of the Python name `cleaned_df` to newly produced
objects (lines 159, 162) become new references. -/
def clean_dataframe_add_sentiment {α : Type} (nfkd : List Nat → List Nat)
    (polarity : List Nat → α) (h : List (DataFrame α)) (df : Nat) : List (DataFrame α) × Nat :=
  let p1 := pdCopy h df
  let h2 := pdApplyTitle (fun s => clean_text nfkd (.pyStr s)) p1.1 p1.2
  let h3 := pdApplyContent (fun s => clean_text nfkd (.pyStr s)) h2 p1.2
  let p4 := heapAlloc h3 (pdFilterContent (heapGet h3 p1.2))
  let p5 := heapAlloc p4.1 (pdResetIndex (heapGet p4.1 p4.2))
  let h6 := pdAddSentiment polarity p5.1 p5.2
  (h6, p5.2)

/-- `df[['date', 'sentiment_score']]` (line 215): the projection the
driver exports to CSV. -/
def exportProjection {α : Type} (d : DataFrame α) : List (List Nat × Option α) :=
  d.rows.map (fun row => (row.date, row.sentiment_score))

/-- The per-row effect of the two column-cleaning passes. -/
def cleanRow {α : Type} (nfkd : List Nat → List Nat) (row : PdRow α) : PdRow α :=
  { row with title := clean_text nfkd (.pyStr row.title),
             content := clean_text nfkd (.pyStr row.content) }

/-- The per-row effect of the sentiment pass. -/
def scoreRow {α : Type} (polarity : List Nat → α) (row : PdRow α) : PdRow α :=
  { row with sentiment_score := some (polarity row.content) }

/-- A concrete two-row frame for witnesses: the second row's content
cleans to the empty string. -/
def dfFixture : DataFrame Int :=
  { index := [0, 1],
    rows := [
      { date := str "20240101", title := str "Cocoa up!",
        content := str "Cocoa prices rose 5% today.", url := str "u1",
        sentiment_score := none },
      { date := str "20240102", title := str "Empty",
        content := str "?!", url := str "u2", sentiment_score := none }] }

/-! ## Concrete page fixtures used by witnesses and counterexamples -/

/-- Anchor of the matching listing item of the spec scenario. -/
def wfAnchor1 : Node :=
  .element (str "a")
    [(str "title", str "X Cocoa Prices Rise"), (str "href", str "/news/a1")] []

/-- Anchor of the non-matching listing item of the spec scenario. -/
def wfAnchor2 : Node :=
  .element (str "a")
    [(str "title", str "Coffee Outlook"), (str "href", str "/news/a2")] []

/-- Matching list item. -/
def wfItem1 : Node := .element (str "li") [] [wfAnchor1]

/-- Non-matching list item. -/
def wfItem2 : Node := .element (str "li") [] [wfAnchor2]

/-- The article list of the well-formed listing page. -/
def wfUl : Node := .element (str "ul") [] [wfItem1, wfItem2]

/-- The `upper` sub-container. -/
def wfUpper : Node := .element (str "div") [(str "class", str "upper")] [wfUl]

/-- The article-list container. -/
def wfContainer : Node :=
  .element (str "div") [(str "class", str "left_artl_list more_news")] [wfUpper]

/-- A well-formed listing page with one matching and one non-matching
item (the spec's own test scenario). -/
def wfListingPage : Node :=
  .element (str "html") [] [.element (str "body") [] [wfContainer]]

/-- An href carrying a non-http URI scheme. -/
def ftpHref : List Nat := str "ftp://example.com/a"

/-- A listing page whose single matching item links through a non-http
scheme. -/
def schemeListingPage : Node :=
  .element (str "html") []
    [.element (str "div") [(str "class", str "left_artl_list more_news")]
      [.element (str "div") [(str "class", str "upper")]
        [.element (str "ul") []
          [.element (str "li") []
            [.element (str "a")
              [(str "title", str "Cocoa rally"), (str "href", ftpHref)] []]]]]]

/-- First fallback paragraph fixture. -/
def fbPara1 : Node := .element (str "p") [] [.text (str "  Para one. ")]

/-- Second, nested fallback paragraph fixture. -/
def fbPara2 : Node := .element (str "p") [] [.text (str "Para two.")]

/-- A content-area container with two paragraphs (one nested). -/
def fbDiv : Node :=
  .element (str "div") [(str "class", str "article-content-area")]
    [fbPara1, .element (str "div") [] [fbPara2]]

/-- An article page without the primary selector but with the fallback
content area. -/
def fbArticlePage : Node := .element (str "html") [] [fbDiv]

/-! ## Lemmas about the `clean_text` pipeline -/

theorem mem_stripSpecial {c : Nat} {s : List Nat} (h : c ∈ stripSpecial s) :
    isAsciiAlnum c = true ∨ isPySpace c = true := by
  rcases List.mem_map.1 h with ⟨a, -, rfl⟩
  by_cases hc : (isAsciiAlnum a || isPySpace a) = true
  · simp only [hc, if_true]
    exact Bool.or_eq_true_iff.1 hc
  · rw [if_neg hc]
    right; decide

theorem mem_collapseWs {c : Nat} {s : List Nat} (h : c ∈ collapseWs s) :
    c = 32 ∨ (c ∈ s ∧ isPySpace c = false) := by
  induction s using collapseWs.induct with
  | case1 => simp [collapseWs] at h
  | case2 c0 =>
    simp only [collapseWs, List.mem_singleton] at h
    by_cases hs : isPySpace c0 = true
    · left; simpa [hs] using h
    · right
      simp only [Bool.not_eq_true] at hs
      simp [hs] at h
      simp [h, hs]
  | case3 c1 c2 rest hsp ih =>
    rw [collapseWs, if_pos hsp] at h
    rcases ih h with h1 | ⟨h2, h3⟩
    · left; exact h1
    · right; exact ⟨List.mem_cons_of_mem _ h2, h3⟩
  | case4 c1 c2 rest hsp ih =>
    rw [collapseWs, if_neg hsp] at h
    rcases List.mem_cons.1 h with h1 | h1
    · by_cases hs : isPySpace c1 = true
      · left; simpa [hs] using h1
      · right
        simp only [Bool.not_eq_true] at hs
        simp [hs] at h1
        simp [h1, hs]
    · rcases ih h1 with h2 | ⟨h2, h3⟩
      · left; exact h2
      · right; exact ⟨List.mem_cons_of_mem _ h2, h3⟩

theorem mem_pyStrip {c : Nat} {s : List Nat} (h : c ∈ pyStrip s) : c ∈ s := by
  unfold pyStrip at h
  rw [List.mem_reverse] at h
  have h2 := (List.dropWhile_sublist isPySpace).mem h
  rw [List.mem_reverse] at h2
  exact (List.dropWhile_sublist isPySpace).mem h2

theorem isOutputChar_asciiLower {a : Nat}
    (h : isAsciiAlnum a = true ∨ a = 32) : isOutputChar (asciiLower a) = true := by
  simp only [isAsciiAlnum, isAsciiAlpha, isAsciiDigit, Bool.or_eq_true,
    Bool.and_eq_true, decide_eq_true_eq] at h
  simp only [isOutputChar, asciiLower, isAsciiDigit, Bool.or_eq_true,
    Bool.and_eq_true, decide_eq_true_eq, beq_iff_eq]
  split <;> omega

theorem isPySpace_iff {n : Nat} : isPySpace n = true ↔
    (9 ≤ n ∧ n ≤ 13) ∨ (28 ≤ n ∧ n ≤ 31) ∨ n = 32 ∨ n = 133 ∨ n = 160 ∨
    n = 5760 ∨ (8192 ≤ n ∧ n ≤ 8202) ∨ n = 8232 ∨ n = 8233 ∨ n = 8239 ∨
    n = 8287 ∨ n = 12288 := by
  simp only [isPySpace, Bool.or_eq_true, Bool.and_eq_true, decide_eq_true_eq,
    beq_iff_eq]
  tauto

theorem isOutputChar_iff {n : Nat} : isOutputChar n = true ↔
    (97 ≤ n ∧ n ≤ 122) ∨ (48 ≤ n ∧ n ≤ 57) ∨ n = 32 := by
  simp only [isOutputChar, isAsciiDigit, Bool.or_eq_true, Bool.and_eq_true,
    decide_eq_true_eq, beq_iff_eq]
  tauto

theorem outputChar_space_eq_32 {c : Nat} (h1 : isOutputChar c = true)
    (h2 : isPySpace c = true) : c = 32 := by
  rw [isOutputChar_iff] at h1
  rw [isPySpace_iff] at h2
  omega

theorem clean_text_str_charset (nfkd : List Nat → List Nat) (s : List Nat) :
    ∀ c ∈ clean_text_str nfkd s, isOutputChar c = true := by
  intro c hc
  unfold clean_text_str at hc
  have h1 := mem_pyStrip hc
  unfold pyLower at h1
  rcases List.mem_map.1 h1 with ⟨a, ha, rfl⟩
  rcases mem_collapseWs ha with h2 | ⟨h2, h3⟩
  · subst h2; exact isOutputChar_asciiLower (Or.inr rfl)
  · rcases mem_stripSpecial h2 with h4 | h4
    · exact isOutputChar_asciiLower (Or.inl h4)
    · rw [h4] at h3; cases h3

/-- C3: for every input, every character of `clean_text` output lies in
`[a-z0-9 ]`. -/
theorem clean_text_output_chars (nfkd : List Nat → List Nat) (v : PyValue) :
    ∀ c ∈ clean_text nfkd v, isOutputChar c = true := by
  intro c hc
  cases v with
  | pyStr s => exact clean_text_str_charset nfkd s c hc
  | pyNone => cases hc
  | pyInt n => cases hc

/-- Witness for C3 at the concrete input `"Ab3!"` (cleaned: `"ab3"`) and
its first output character `a`. -/
theorem clean_text_output_chars_witness :
    97 ∈ clean_text id (.pyStr (str "Ab3!")) ∧ isOutputChar 97 = true :=
  ⟨by decide, clean_text_output_chars id (.pyStr (str "Ab3!")) 97 (by decide)⟩

/-- C4: `clean_text` on any non-string value returns the empty string
(scraping.py lines 110-111). -/
theorem clean_text_nonstring_empty (nfkd : List Nat → List Nat) (v : PyValue)
    (h : ∀ s, v ≠ PyValue.pyStr s) : clean_text nfkd v = [] := by
  cases v with
  | pyStr s => exact absurd rfl (h s)
  | pyNone => rfl
  | pyInt n => rfl

/-- Witness for C4: `clean_text(None)` and `clean_text(123)` both yield
the empty string. -/
theorem clean_text_nonstring_empty_witness :
    clean_text id PyValue.pyNone = [] ∧ clean_text id (PyValue.pyInt 123) = [] :=
  ⟨clean_text_nonstring_empty id PyValue.pyNone (fun _ h => nomatch h),
   clean_text_nonstring_empty id (PyValue.pyInt 123) (fun _ h => nomatch h)⟩

theorem collapseWs_cons_of_nonspace {c : Nat} {rest : List Nat}
    (h : isPySpace c = false) : collapseWs (c :: rest) = c :: collapseWs rest := by
  cases rest with
  | nil => simp [collapseWs, h]
  | cons c2 t => simp [collapseWs, h]

theorem noTwoSpaces_collapseWs (s : List Nat) : NoTwoSpaces (collapseWs s) := by
  induction s using collapseWs.induct with
  | case1 => simp [collapseWs, NoTwoSpaces]
  | case2 c0 => simp [collapseWs, NoTwoSpaces]
  | case3 c1 c2 rest hsp ih =>
    rw [collapseWs, if_pos hsp]
    exact ih
  | case4 c1 c2 rest hsp ih =>
    rw [collapseWs, if_neg hsp]
    have hb : (isPySpace c1 && isPySpace c2) = false := by
      cases hbc : (isPySpace c1 && isPySpace c2) with
      | false => rfl
      | true => exact absurd hbc hsp
    by_cases h1 : isPySpace c1 = true
    · have h2 : isPySpace c2 = false := by
        cases hc2 : isPySpace c2 with
        | false => rfl
        | true => rw [h1, hc2] at hb; cases hb
      rw [if_pos h1, collapseWs_cons_of_nonspace h2]
      rw [collapseWs_cons_of_nonspace h2] at ih
      unfold NoTwoSpaces at ih ⊢
      rw [List.chain'_cons]
      exact ⟨Or.inr h2, ih⟩
    · rw [if_neg h1]
      rw [Bool.not_eq_true] at h1
      unfold NoTwoSpaces at ih ⊢
      rw [List.chain'_cons']
      exact ⟨fun y _ => Or.inl h1, ih⟩

theorem isPySpace_asciiLower (n : Nat) : isPySpace (asciiLower n) = isPySpace n := by
  unfold asciiLower
  by_cases hc : (65 ≤ n && n ≤ 90) = true
  · rw [if_pos hc]
    simp only [Bool.and_eq_true, decide_eq_true_eq] at hc
    have h1 : isPySpace (n + 32) = false := by
      rw [← Bool.not_eq_true, isPySpace_iff]; omega
    have h2 : isPySpace n = false := by
      rw [← Bool.not_eq_true, isPySpace_iff]; omega
    rw [h1, h2]
  · rw [if_neg hc]

theorem noTwoSpaces_pyLower {s : List Nat} (h : NoTwoSpaces s) :
    NoTwoSpaces (pyLower s) := by
  unfold NoTwoSpaces at h ⊢
  unfold pyLower
  rw [List.chain'_map]
  exact h.imp (fun a b hab => by
    rw [isPySpace_asciiLower, isPySpace_asciiLower]; exact hab)

theorem pyStrip_prefix_dropWhile (s : List Nat) :
    pyStrip s <+: s.dropWhile isPySpace := by
  unfold pyStrip
  rw [← List.reverse_suffix, List.reverse_reverse]
  exact List.dropWhile_suffix _

theorem pyStrip_isInfix (s : List Nat) : pyStrip s <:+: s :=
  (pyStrip_prefix_dropWhile s).isInfix.trans (List.dropWhile_suffix _).isInfix

theorem noTwoSpaces_pyStrip {s : List Nat} (h : NoTwoSpaces s) :
    NoTwoSpaces (pyStrip s) :=
  h.infix (pyStrip_isInfix s)

theorem pyStrip_head_not_space {s : List Nat} {c : Nat}
    (h : (pyStrip s).head? = some c) : isPySpace c = false := by
  obtain ⟨t, ht⟩ := pyStrip_prefix_dropWhile s
  cases hp : pyStrip s with
  | nil => rw [hp] at h; cases h
  | cons a l =>
    rw [hp] at h
    injection h with h
    have hh : (s.dropWhile isPySpace).head? = some a := by
      rw [← ht, hp]; rfl
    have h4 := List.head?_dropWhile_not isPySpace s
    rw [hh] at h4
    rw [← h]
    exact h4

theorem pyStrip_getLast_not_space {s : List Nat} {c : Nat}
    (h : (pyStrip s).getLast? = some c) : isPySpace c = false := by
  unfold pyStrip at h
  rw [List.getLast?_reverse] at h
  have h4 := List.head?_dropWhile_not isPySpace (s.dropWhile isPySpace).reverse
  rw [h] at h4
  exact h4

theorem cleaned_clean_text_str (nfkd : List Nat → List Nat) (s : List Nat) :
    Cleaned (clean_text_str nfkd s) := by
  refine ⟨clean_text_str_charset nfkd s, ?_, ?_, ?_⟩
  · unfold clean_text_str
    exact noTwoSpaces_pyStrip (noTwoSpaces_pyLower (noTwoSpaces_collapseWs _))
  · intro hcon
    have := pyStrip_head_not_space (s := pyLower (collapseWs (stripSpecial
      (stripUrls (stripEntities (nfkd s)))))) hcon
    cases this
  · intro hcon
    have := pyStrip_getLast_not_space (s := pyLower (collapseWs (stripSpecial
      (stripUrls (stripEntities (nfkd s)))))) hcon
    cases this

theorem stripEntitiesAux_zero_id {s : List Nat} (h : ∀ c ∈ s, c ≠ 38) :
    stripEntitiesAux 0 s = s := by
  induction s with
  | nil => rfl
  | cons c rest ih =>
    have hc : (c == 38) = false := by
      simpa using h c (List.mem_cons_self c rest)
    simp only [stripEntitiesAux, hc, Bool.false_eq_true, if_false]
    exact congrArg (c :: ·) (ih (fun a ha => h a (List.mem_cons_of_mem _ ha)))

theorem stripUrlsAux_zero_id {s : List Nat} (h : hasUrlMatch s = false) :
    stripUrlsAux 0 s = s := by
  induction s with
  | nil => rfl
  | cons c rest ih =>
    simp only [hasUrlMatch, Bool.or_eq_false_iff, bne_eq_false_iff_eq] at h
    simp only [stripUrlsAux, h.1]
    simp only [beq_self_eq_true, if_true]
    exact congrArg (c :: ·) (ih h.2)

theorem stripSpecial_id {s : List Nat} (h : ∀ c ∈ s, isOutputChar c = true) :
    stripSpecial s = s := by
  unfold stripSpecial
  have hcg : ∀ c ∈ s, (if isAsciiAlnum c || isPySpace c then c else 32) = c := by
    intro c hc
    have h2 := h c hc
    rw [isOutputChar_iff] at h2
    have h3 : (isAsciiAlnum c || isPySpace c) = true := by
      simp only [isAsciiAlnum, isAsciiAlpha, isAsciiDigit, Bool.or_eq_true,
        Bool.and_eq_true, decide_eq_true_eq]
      rcases h2 with h2 | h2 | h2
      · left; left; omega
      · left; right; omega
      · right; rw [isPySpace_iff]; omega
    rw [if_pos h3]
  rw [List.map_congr_left hcg, List.map_id']

theorem collapseWs_id : ∀ s : List Nat, (∀ c ∈ s, isOutputChar c = true) →
    NoTwoSpaces s → collapseWs s = s := by
  intro s
  induction s using collapseWs.induct with
  | case1 => intro _ _; rfl
  | case2 c0 =>
    intro hchar _
    by_cases hs : isPySpace c0 = true
    · have h32 : c0 = 32 :=
        outputChar_space_eq_32 (hchar c0 (List.mem_singleton_self c0)) hs
      simp [collapseWs, hs, h32]
    · rw [Bool.not_eq_true] at hs
      simp [collapseWs, hs]
  | case3 c1 c2 rest hsp ih =>
    intro _ hns
    exfalso
    unfold NoTwoSpaces at hns
    rw [List.chain'_cons] at hns
    rw [Bool.and_eq_true] at hsp
    rcases hns.1 with h | h
    · rw [hsp.1] at h; cases h
    · rw [hsp.2] at h; cases h
  | case4 c1 c2 rest hsp ih =>
    intro hchar hns
    rw [collapseWs, if_neg hsp]
    have htail : NoTwoSpaces (c2 :: rest) := by
      unfold NoTwoSpaces at hns ⊢
      exact (List.chain'_cons.1 hns).2
    have hchar' : ∀ c ∈ c2 :: rest, isOutputChar c = true :=
      fun c hc => hchar c (List.mem_cons_of_mem _ hc)
    rw [ih hchar' htail]
    by_cases hs : isPySpace c1 = true
    · have h32 : c1 = 32 :=
        outputChar_space_eq_32 (hchar c1 (List.mem_cons_self c1 _)) hs
      simp [hs, h32]
    · rw [Bool.not_eq_true] at hs
      simp [hs]

theorem pyLower_id {s : List Nat} (h : ∀ c ∈ s, isOutputChar c = true) :
    pyLower s = s := by
  unfold pyLower
  have hcg : ∀ c ∈ s, asciiLower c = c := by
    intro c hc
    have h2 := h c hc
    rw [isOutputChar_iff] at h2
    unfold asciiLower
    rw [if_neg]
    simp only [Bool.and_eq_true, decide_eq_true_eq, not_and, not_le]
    omega
  rw [List.map_congr_left hcg, List.map_id']

theorem pyStrip_id {s : List Nat} (hchar : ∀ c ∈ s, isOutputChar c = true)
    (h1 : s.head? ≠ some 32) (h2 : s.getLast? ≠ some 32) : pyStrip s = s := by
  have hdrop : ∀ t : List Nat, (∀ c ∈ t, isOutputChar c = true) →
      t.head? ≠ some 32 → t.dropWhile isPySpace = t := by
    intro t ht hh
    cases t with
    | nil => rfl
    | cons a l =>
      have ha : isPySpace a = false := by
        cases hsa : isPySpace a with
        | false => rfl
        | true =>
          have h32 := outputChar_space_eq_32 (ht a (List.mem_cons_self a l)) hsa
          rw [h32] at hh
          exact absurd rfl hh
      simp [List.dropWhile_cons, ha]
  unfold pyStrip
  rw [hdrop s hchar h1]
  have hrev : ∀ c ∈ s.reverse, isOutputChar c = true := by
    intro c hc
    exact hchar c (List.mem_reverse.1 hc)
  have hrh : s.reverse.head? ≠ some 32 := by
    rw [List.head?_reverse]
    exact h2
  rw [hdrop s.reverse hrev hrh, List.reverse_reverse]

theorem cleaned_ascii {s : List Nat} (h : ∀ c ∈ s, isOutputChar c = true) :
    ∀ c ∈ s, c < 128 := by
  intro c hc
  have h2 := h c hc
  rw [isOutputChar_iff] at h2
  omega

theorem clean_text_str_fixed_of_cleaned {nfkd : List Nat → List Nat}
    {y : List Nat} (hn : FixesAscii nfkd) (hcl : Cleaned y)
    (hu : hasUrlMatch y = false) : clean_text_str nfkd y = y := by
  obtain ⟨hchar, hns, hh, hl⟩ := hcl
  unfold clean_text_str
  rw [hn y (cleaned_ascii hchar)]
  unfold stripEntities
  rw [stripEntitiesAux_zero_id (fun c hc h38 => by
    have := hchar c hc
    rw [h38] at this
    cases this)]
  unfold stripUrls
  rw [stripUrlsAux_zero_id hu]
  rw [stripSpecial_id hchar]
  rw [collapseWs_id y hchar hns]
  rw [pyLower_id hchar]
  exact pyStrip_id hchar hh hl

/-- C1 counterexample: `clean_text` is not idempotent.  On the all-ASCII
input `"HTTPX"` (on which NFKD is the identity, so `id` is a faithful
instance of the normalizer) the first pass lowercases to `"httpx"`,
which the second pass's URL substitution `http\S+` deletes entirely:
the lowercasing step runs after URL removal, so a second application is
not a no-op. -/
theorem clean_text_not_idempotent :
    FixesAscii id ∧
    clean_text id (.pyStr (clean_text id (.pyStr (str "HTTPX")))) ≠
      clean_text id (.pyStr (str "HTTPX")) :=
  ⟨fun _ _ => rfl, by decide⟩

/-- C1 amended: `clean_text` is idempotent on exactly those inputs whose
cleaned form contains no match of the URL pattern `http\S+|www\.\S+`
(for any normalizer that fixes all-ASCII strings, as NFKD does). -/
theorem clean_text_idempotent_of_no_url_match (nfkd : List Nat → List Nat)
    (hn : FixesAscii nfkd) (x : List Nat)
    (hu : hasUrlMatch (clean_text_str nfkd x) = false) :
    clean_text nfkd (.pyStr (clean_text nfkd (.pyStr x))) =
      clean_text nfkd (.pyStr x) :=
  clean_text_str_fixed_of_cleaned hn (cleaned_clean_text_str nfkd x) hu

/-- Witness for the amended C1 at the concrete input
`"Cocoa prices rose 5% today!"`. -/
theorem clean_text_idempotent_of_no_url_match_witness :
    hasUrlMatch (clean_text_str id (str "Cocoa prices rose 5% today!")) = false ∧
    clean_text id (.pyStr (clean_text id (.pyStr (str "Cocoa prices rose 5% today!")))) =
      clean_text id (.pyStr (str "Cocoa prices rose 5% today!")) :=
  ⟨by decide,
   clean_text_idempotent_of_no_url_match id (fun _ _ => rfl) _ (by decide)⟩

/-! ## Lemmas about the calendar and `generate_date_urls` -/

theorem daysInMonth_le_31 (y m : Nat) : daysInMonth y m ≤ 31 := by
  unfold daysInMonth
  split_ifs <;> omega

theorem daysBeforeMonth_succ (y m : Nat) (h : 1 ≤ m) :
    daysBeforeMonth y (m + 1) = daysBeforeMonth y m + daysInMonth y m := by
  match m, h with
  | Nat.succ k, _ => rfl

theorem daysBeforeMonth_mono (y : Nat) {m1 m2 : Nat} (h1 : 1 ≤ m1)
    (h : m1 ≤ m2) : daysBeforeMonth y m1 ≤ daysBeforeMonth y m2 := by
  induction m2, h using Nat.le_induction with
  | base => exact le_refl _
  | succ n hn ih =>
    rw [daysBeforeMonth_succ y n (le_trans h1 hn)]
    omega

theorem daysInMonth_eval (y : Nat) :
    daysInMonth y 1 = 31 ∧ (daysInMonth y 2 = if isLeapYear y then 29 else 28) ∧
    daysInMonth y 3 = 31 ∧ daysInMonth y 4 = 30 ∧ daysInMonth y 5 = 31 ∧
    daysInMonth y 6 = 30 ∧ daysInMonth y 7 = 31 ∧ daysInMonth y 8 = 31 ∧
    daysInMonth y 9 = 30 ∧ daysInMonth y 10 = 31 ∧ daysInMonth y 11 = 30 := by
  unfold daysInMonth
  norm_num

theorem daysBeforeMonth_twelve (y : Nat) :
    daysBeforeMonth y 12 + 31 = 365 + (if isLeapYear y then 1 else 0) := by
  have h1 : daysBeforeMonth y 1 = 0 := rfl
  have s2 := daysBeforeMonth_succ y 1 (by omega)
  have s3 := daysBeforeMonth_succ y 2 (by omega)
  have s4 := daysBeforeMonth_succ y 3 (by omega)
  have s5 := daysBeforeMonth_succ y 4 (by omega)
  have s6 := daysBeforeMonth_succ y 5 (by omega)
  have s7 := daysBeforeMonth_succ y 6 (by omega)
  have s8 := daysBeforeMonth_succ y 7 (by omega)
  have s9 := daysBeforeMonth_succ y 8 (by omega)
  have s10 := daysBeforeMonth_succ y 9 (by omega)
  have s11 := daysBeforeMonth_succ y 10 (by omega)
  have s12 := daysBeforeMonth_succ y 11 (by omega)
  norm_num at s2 s3 s4 s5 s6 s7 s8 s9 s10 s11 s12
  obtain ⟨d1, d2, d3, d4, d5, d6, d7, d8, d9, d10, d11⟩ := daysInMonth_eval y
  rw [s12, s11, s10, s9, s8, s7, s6, s5, s4, s3, s2, h1,
    d1, d2, d3, d4, d5, d6, d7, d8, d9, d10, d11]
  split_ifs <;> omega

theorem daysInMonth_twelve (y : Nat) : daysInMonth y 12 = 31 := by
  simp [daysInMonth]

set_option maxHeartbeats 1000000 in
theorem daysBeforeYear_succ (y : Nat) (h : 1 ≤ y) :
    daysBeforeYear (y + 1) =
      daysBeforeYear y + 365 + (if isLeapYear y then 1 else 0) := by
  obtain ⟨z, rfl⟩ : ∃ z, y = z + 1 := ⟨y - 1, by omega⟩
  unfold daysBeforeYear isLeapYear
  simp only [Nat.add_sub_cancel]
  split_ifs with hl
  · simp only [Bool.or_eq_true, Bool.and_eq_true, beq_iff_eq, bne_iff_ne,
      ne_eq] at hl
    omega
  · simp only [Bool.or_eq_true, Bool.and_eq_true, beq_iff_eq, bne_iff_ne,
      ne_eq, not_or, not_and, Decidable.not_not] at hl
    omega

theorem daysBeforeYear_mono {y1 y2 : Nat} (h1 : 1 ≤ y1) (h : y1 ≤ y2) :
    daysBeforeYear y1 ≤ daysBeforeYear y2 := by
  induction y2, h using Nat.le_induction with
  | base => exact le_refl _
  | succ n hn ih =>
    rw [daysBeforeYear_succ n (le_trans h1 hn)]
    split_ifs <;> omega

theorem dbm_add_day_le (d : Date) :
    daysBeforeMonth d.year d.month + d.day ≤
      365 + (if isLeapYear d.year then 1 else 0) := by
  have h1 := d.day_le
  have h2 := d.month_ge
  have h3 := d.month_le
  have h4 : daysBeforeMonth d.year d.month + d.day ≤
      daysBeforeMonth d.year (d.month + 1) := by
    rw [daysBeforeMonth_succ _ _ h2]
    omega
  have h5 : daysBeforeMonth d.year (d.month + 1) ≤ daysBeforeMonth d.year 13 := by
    exact daysBeforeMonth_mono d.year (by omega) (by omega)
  have h6 : daysBeforeMonth d.year 13 =
      365 + (if isLeapYear d.year then 1 else 0) := by
    rw [daysBeforeMonth_succ d.year 12 (by omega), daysInMonth_twelve]
    have := daysBeforeMonth_twelve d.year
    omega
  omega

theorem toordinal_nextDay {d d' : Date} (h : nextDay d = some d') :
    toordinal d' = toordinal d + 1 := by
  have hd1 := d.day_ge
  have hd2 := d.day_le
  have hm1 := d.month_ge
  have hm2 := d.month_le
  unfold nextDay at h
  split_ifs at h with h1 h2 h3
  · injection h with h4
    subst h4
    unfold toordinal
    dsimp only
    omega
  · injection h with h4
    subst h4
    unfold toordinal
    dsimp only
    rw [daysBeforeMonth_succ _ _ hm1]
    omega
  · injection h with h4
    subst h4
    unfold toordinal
    dsimp only
    have hm : d.month = 12 := by omega
    have hdd : d.day = 31 := by
      rw [hm, daysInMonth_twelve] at hd2
      rw [hm] at h1
      rw [daysInMonth_twelve] at h1
      omega
    rw [daysBeforeYear_succ _ d.year_pos, hm, hdd]
    have h12 := daysBeforeMonth_twelve d.year
    have h0 : daysBeforeMonth (d.year + 1) 1 = 0 := rfl
    split_ifs at h12 ⊢ <;> omega

theorem toordinal_le_of_dateLE {a b : Date} (h : dateLE a b = true) :
    toordinal a ≤ toordinal b := by
  simp only [dateLE, Bool.or_eq_true, Bool.and_eq_true, decide_eq_true_eq,
    beq_iff_eq] at h
  unfold toordinal
  rcases h with h | ⟨hy, h | ⟨hm, hd⟩⟩
  · have h1 := dbm_add_day_le a
    have h2 : daysBeforeYear a.year + 365 + (if isLeapYear a.year then 1 else 0) =
        daysBeforeYear (a.year + 1) := (daysBeforeYear_succ a.year a.year_pos).symm
    have h3 : daysBeforeYear (a.year + 1) ≤ daysBeforeYear b.year :=
      daysBeforeYear_mono (by omega) (by omega)
    have h4 := b.day_ge
    omega
  · have h1 := a.day_le
    have h2 : daysBeforeMonth a.year a.month + a.day ≤
        daysBeforeMonth a.year (a.month + 1) := by
      rw [daysBeforeMonth_succ _ _ a.month_ge]; omega
    have h3 : daysBeforeMonth a.year (a.month + 1) ≤
        daysBeforeMonth a.year b.month :=
      daysBeforeMonth_mono _ (by omega) (by omega)
    have h4 := b.day_ge
    rw [hy] at h2 h3 ⊢
    omega
  · rw [hy, hm]
    omega

theorem toordinal_lt_of_dateLE_false {a b : Date} (h : dateLE a b = false) :
    toordinal b < toordinal a := by
  have h' : ¬(a.year < b.year ∨ (a.year = b.year ∧
      (a.month < b.month ∨ (a.month = b.month ∧ a.day ≤ b.day)))) := by
    intro hcon
    have : dateLE a b = true := by
      simp only [dateLE, Bool.or_eq_true, Bool.and_eq_true, decide_eq_true_eq,
        beq_iff_eq]
      exact hcon
    rw [h] at this
    cases this
  have hcase : b.year < a.year ∨ (b.year = a.year ∧
      (b.month < a.month ∨ (b.month = a.month ∧ b.day < a.day))) := by
    by_cases e1 : a.year = b.year
    · by_cases e2 : a.month = b.month
      · right; exact ⟨e1.symm, Or.inr ⟨e2.symm, by omega⟩⟩
      · right
        refine ⟨e1.symm, Or.inl ?_⟩
        by_cases e3 : b.month < a.month
        · exact e3
        · exact absurd (Or.inr ⟨e1, Or.inl (by omega)⟩) h'
    · by_cases e3 : b.year < a.year
      · left; exact e3
      · exact absurd (Or.inl (by omega)) h'
  unfold toordinal
  rcases hcase with h1 | ⟨hy, h1 | ⟨hm, hd⟩⟩
  · have hb1 := dbm_add_day_le b
    have hb2 : daysBeforeYear b.year + 365 + (if isLeapYear b.year then 1 else 0) =
        daysBeforeYear (b.year + 1) := (daysBeforeYear_succ b.year b.year_pos).symm
    have hb3 : daysBeforeYear (b.year + 1) ≤ daysBeforeYear a.year :=
      daysBeforeYear_mono (by omega) (by omega)
    have ha1 := a.day_ge
    omega
  · have hb0 := b.day_le
    have hb2 : daysBeforeMonth b.year b.month + b.day ≤
        daysBeforeMonth b.year (b.month + 1) := by
      rw [daysBeforeMonth_succ _ _ b.month_ge]; omega
    have hb3 : daysBeforeMonth b.year (b.month + 1) ≤
        daysBeforeMonth b.year a.month :=
      daysBeforeMonth_mono _ (by omega) (by omega)
    have ha1 := a.day_ge
    rw [hy] at hb2 hb3 ⊢
    omega
  · rw [hy, hm]
    omega

theorem dateLE_iff_toordinal {a b : Date} :
    dateLE a b = true ↔ toordinal a ≤ toordinal b := by
  constructor
  · exact toordinal_le_of_dateLE
  · intro h
    cases hc : dateLE a b with
    | true => rfl
    | false =>
      have := toordinal_lt_of_dateLE_false hc
      omega

theorem date_ext {a b : Date} (hy : a.year = b.year) (hm : a.month = b.month)
    (hd : a.day = b.day) : a = b := by
  cases a
  cases b
  dsimp only at hy hm hd
  subst hy
  subst hm
  subst hd
  rfl

theorem toordinal_inj {a b : Date} (h : toordinal a = toordinal b) : a = b := by
  by_cases hab : dateLE a b = true
  · by_cases hba : dateLE b a = true
    · simp only [dateLE, Bool.or_eq_true, Bool.and_eq_true, decide_eq_true_eq,
        beq_iff_eq] at hab hba
      apply date_ext <;> omega
    · have hf : dateLE b a = false := by
        cases hc : dateLE b a with
        | false => rfl
        | true => exact absurd hc hba
      have := toordinal_lt_of_dateLE_false hf
      omega
  · have hf : dateLE a b = false := by
      cases hc : dateLE a b with
      | false => rfl
      | true => exact absurd hc hab
    have := toordinal_lt_of_dateLE_false hf
    omega

theorem dateLE_dmax (d : Date) : dateLE d dmax = true := by
  have h1 := d.year_le
  have h2 := d.month_le
  have h3 := d.day_le
  have h4 := daysInMonth_le_31 d.year d.month
  simp only [dateLE, dmax, Bool.or_eq_true, Bool.and_eq_true, decide_eq_true_eq,
    beq_iff_eq]
  omega

theorem nextDay_eq_none {d : Date} (h : nextDay d = none) : d = dmax := by
  have hd2 := d.day_le
  have hm2 := d.month_le
  have hy2 := d.year_le
  unfold nextDay at h
  split_ifs at h with h1 h2 h3
  have hm : d.month = 12 := by omega
  have hdd : d.day = 31 := by
    rw [hm, daysInMonth_twelve] at hd2
    rw [hm, daysInMonth_twelve] at h1
    omega
  apply date_ext <;> simp only [dmax] <;> omega

theorem foldl_padNat (w : Nat) : ∀ (n a : Nat),
    (padNat w n).foldl (fun a c => a * 10 + (c - 48)) a = a * 10 ^ w + n % 10 ^ w := by
  induction w with
  | zero =>
    intro n a
    simp [padNat, Nat.mod_one]
  | succ w ih =>
    intro n a
    simp only [padNat, List.foldl_cons]
    rw [ih]
    have h48 : a * 10 + (48 + n / 10 ^ w % 10 - 48) = a * 10 + n / 10 ^ w % 10 := by
      omega
    rw [h48]
    have hm : n % 10 ^ (w + 1) = n % 10 ^ w + 10 ^ w * (n / 10 ^ w % 10) := by
      rw [pow_succ]
      exact Nat.mod_mul
    rw [hm, pow_succ]
    ring

theorem keyVal_dateKey (d : Date) (hy : d.year ≤ 9999) :
    keyVal (dateKey d) = (d.year * 100 + d.month) * 100 + d.day := by
  unfold keyVal dateKey
  rw [List.foldl_append, List.foldl_append, foldl_padNat, foldl_padNat,
    foldl_padNat]
  have hm : d.month % 10 ^ 2 = d.month :=
    Nat.mod_eq_of_lt (by have := d.month_le; omega)
  have hd : d.day % 10 ^ 2 = d.day := by
    refine Nat.mod_eq_of_lt ?_
    have h1 := d.day_le
    have h2 := daysInMonth_le_31 d.year d.month
    omega
  have hy4 : d.year % 10 ^ 4 = d.year := Nat.mod_eq_of_lt (by omega)
  rw [hm, hd, hy4]
  norm_num

theorem padNat_length (w : Nat) : ∀ n, (padNat w n).length = w := by
  induction w with
  | zero => intro n; rfl
  | succ w ih => intro n; simp [padNat, ih]

theorem mem_padNat_digit {w n c : Nat} (h : c ∈ padNat w n) :
    isAsciiDigit c = true := by
  induction w generalizing c with
  | zero => cases h
  | succ w ih =>
    simp only [padNat, List.mem_cons] at h
    rcases h with h | h
    · subst h
      simp only [isAsciiDigit, Bool.and_eq_true, decide_eq_true_eq]
      have := Nat.mod_lt (n / 10 ^ w) (show 0 < 10 by omega)
      omega
    · exact ih h

theorem dateKey_length (d : Date) : (dateKey d).length = 8 := by
  simp [dateKey, padNat_length]

theorem dateKey_digits (d : Date) : ∀ c ∈ dateKey d, isAsciiDigit c = true := by
  intro c hc
  simp only [dateKey, List.mem_append] at hc
  rcases hc with (hc | hc) | hc <;> exact mem_padNat_digit hc

theorem dateKey_ne_nil (d : Date) : dateKey d ≠ [] := by
  intro hc
  have := dateKey_length d
  rw [hc] at this
  cases this

theorem countOccs_short {pat s : List Nat} (h : s.length < pat.length) :
    countOccs pat s = 0 := by
  induction s with
  | nil =>
    have hne : pat ≠ [] := by
      intro hc
      rw [hc] at h
      cases h
    simp [countOccs, hne]
  | cons c rest ih =>
    simp only [countOccs]
    have h1 : ¬ pat.isPrefixOf (c :: rest) = true := by
      intro hc
      have h2 := (List.isPrefixOf_iff_prefix.1 hc).length_le
      simp only [List.length_cons] at h2 h
      omega
    rw [if_neg h1]
    have h3 : rest.length < pat.length := by
      simp only [List.length_cons] at h
      omega
    rw [ih h3]

theorem countOccs_self {pat : List Nat} (h : pat ≠ []) : countOccs pat pat = 1 := by
  cases hp : pat with
  | nil => exact absurd hp h
  | cons c rest =>
    simp only [countOccs]
    rw [if_pos (List.isPrefixOf_iff_prefix.2 (List.prefix_refl _))]
    rw [countOccs_short (by simp [hp])]

theorem countOccs_append_one {tpl pat : List Nat} (hpat : pat ≠ [])
    (hdig : ∀ c ∈ pat, isAsciiDigit c = true)
    (htpl : ∀ c ∈ tpl, isAsciiDigit c = false) :
    countOccs pat (tpl ++ pat) = 1 := by
  induction tpl with
  | nil => simpa using countOccs_self hpat
  | cons c t ih =>
    simp only [List.cons_append, countOccs, List.append_eq]
    have hnp : ¬ pat.isPrefixOf (c :: (t ++ pat)) = true := by
      intro hc
      have hpre := List.isPrefixOf_iff_prefix.1 hc
      cases hp : pat with
      | nil => exact hpat hp
      | cons p0 pr =>
        rw [hp] at hpre
        obtain ⟨tt, htt⟩ := hpre
        simp only [List.cons_append] at htt
        have hp0 : p0 = c := by
          injection htt with h1 h2
        have hd := hdig p0 (by rw [hp]; exact List.mem_cons_self _ _)
        have hc' := htpl c (List.mem_cons_self _ _)
        rw [hp0] at hd
        rw [hd] at hc'
        cases hc'
    rw [if_neg hnp]
    have := ih (fun a ha => htpl a (List.mem_cons_of_mem _ ha))
    omega

theorem urlPrefix_no_digit : ∀ c ∈ urlPrefix, isAsciiDigit c = false := by
  decide

theorem keyVal_dateKey_lt {a b : Date} (ha : a.year ≤ 9999) (hb : b.year ≤ 9999)
    (h : toordinal a < toordinal b) : keyVal (dateKey a) < keyVal (dateKey b) := by
  have h1 : dateLE a b = true := dateLE_iff_toordinal.2 (by omega)
  have h2 : dateLE b a = false := by
    cases hc : dateLE b a with
    | false => rfl
    | true =>
      have := toordinal_le_of_dateLE hc
      omega
  rw [keyVal_dateKey a ha, keyVal_dateKey b hb]
  simp only [dateLE, Bool.or_eq_true, Bool.and_eq_true, decide_eq_true_eq,
    beq_iff_eq] at h1
  have h2' : ¬(b.year < a.year ∨ (b.year = a.year ∧
      (b.month < a.month ∨ (b.month = a.month ∧ b.day ≤ a.day)))) := by
    intro hcon
    have hT : dateLE b a = true := by
      simp only [dateLE, Bool.or_eq_true, Bool.and_eq_true, decide_eq_true_eq,
        beq_iff_eq]
      exact hcon
    rw [h2] at hT
    cases hT
  have hma := a.month_le
  have hmb := b.month_le
  have hda := a.day_le
  have hdb := b.day_le
  have hba := daysInMonth_le_31 a.year a.month
  have hbb := daysInMonth_le_31 b.year b.month
  omega

theorem generate_date_urls_eq_none {s e : Date} (hle : dateLE s e = true)
    (h : nextDay s = none) : generate_date_urls s e = none := by
  rw [generate_date_urls.eq_def, if_pos hle]
  split
  · rfl
  · rename_i next1 heq
    rw [h] at heq
    cases heq

theorem generate_date_urls_eq_cons {s e next : Date} (hle : dateLE s e = true)
    (h : nextDay s = some next) : generate_date_urls s e =
      (generate_date_urls next e).map ((dateKey s, urlFor s) :: ·) := by
  rw [generate_date_urls.eq_def, if_pos hle]
  split
  · rename_i heq
    rw [h] at heq
    cases heq
  · rename_i next1 heq
    rw [h] at heq
    injection heq with heq2
    rw [heq2]

theorem generate_date_urls_eq_nil {s e : Date} (hle : ¬dateLE s e = true) :
    generate_date_urls s e = some [] := by
  rw [generate_date_urls.eq_def, if_neg hle]

theorem generate_date_urls_isSome : ∀ (s e : Date), e ≠ dmax →
    ∃ l, generate_date_urls s e = some l := by
  intro s e
  induction s, e using generate_date_urls.induct with
  | case1 s e hle hnone =>
    intro hne
    exfalso
    have hs : s = dmax := nextDay_eq_none hnone
    have h1 := toordinal_le_of_dateLE hle
    have h2 := toordinal_le_of_dateLE (dateLE_dmax e)
    rw [hs] at h1
    exact hne (toordinal_inj (by omega))
  | case2 s e hle next hsome ih =>
    intro hne
    obtain ⟨l', hl'⟩ := ih hne
    refine ⟨(dateKey s, urlFor s) :: l', ?_⟩
    rw [generate_date_urls_eq_cons hle hsome, hl']
    rfl
  | case3 s e hle =>
    intro _
    exact ⟨[], generate_date_urls_eq_nil hle⟩

theorem generate_date_urls_len : ∀ (s e : Date) (l : List (List Nat × List Nat)),
    dateLE s e = true → generate_date_urls s e = some l →
    l.length = toordinal e + 1 - toordinal s := by
  intro s e
  induction s, e using generate_date_urls.induct with
  | case1 s e hle hnone =>
    intro l hse hgen
    rw [generate_date_urls_eq_none hle hnone] at hgen
    cases hgen
  | case2 s e hle next hsome ih =>
    intro l hse hgen
    rw [generate_date_urls_eq_cons hle hsome] at hgen
    rw [Option.map_eq_some'] at hgen
    obtain ⟨l', hl', hcons⟩ := hgen
    subst hcons
    rw [List.length_cons]
    have ht := toordinal_nextDay hsome
    have hse' := toordinal_le_of_dateLE hle
    by_cases h2 : dateLE next e = true
    · rw [ih l' h2 hl']
      have := toordinal_le_of_dateLE h2
      omega
    · have hf : dateLE next e = false := by
        cases hc : dateLE next e with
        | false => rfl
        | true => exact absurd hc h2
      have hlt := toordinal_lt_of_dateLE_false hf
      have hempty : generate_date_urls next e = some [] :=
        generate_date_urls_eq_nil h2
      rw [hempty] at hl'
      injection hl' with hl2
      rw [← hl2]
      simp only [List.length_nil]
      omega
  | case3 s e hle =>
    intro l hse hgen
    exact absurd hse hle

theorem mem_generate_date_urls : ∀ (s e : Date)
    (l : List (List Nat × List Nat)) (p : List Nat × List Nat),
    generate_date_urls s e = some l → p ∈ l → ∃ d : Date,
      dateLE s d = true ∧ dateLE d e = true ∧ p = (dateKey d, urlFor d) := by
  intro s e
  induction s, e using generate_date_urls.induct with
  | case1 s e hle hnone =>
    intro l p hgen hp
    rw [generate_date_urls_eq_none hle hnone] at hgen
    cases hgen
  | case2 s e hle next hsome ih =>
    intro l p hgen hp
    rw [generate_date_urls_eq_cons hle hsome] at hgen
    rw [Option.map_eq_some'] at hgen
    obtain ⟨l', hl', hcons⟩ := hgen
    subst hcons
    rcases List.mem_cons.1 hp with h1 | h1
    · exact ⟨s, dateLE_iff_toordinal.2 (le_refl _), hle, h1⟩
    · obtain ⟨d, hd1, hd2, hd3⟩ := ih l' p hl' h1
      refine ⟨d, ?_, hd2, hd3⟩
      rw [dateLE_iff_toordinal] at hd1 ⊢
      have := toordinal_nextDay hsome
      omega
  | case3 s e hle =>
    intro l p hgen hp
    rw [generate_date_urls_eq_nil hle] at hgen
    injection hgen with h1
    rw [← h1] at hp
    cases hp

theorem generate_date_urls_complete : ∀ (s e : Date)
    (l : List (List Nat × List Nat)), generate_date_urls s e = some l →
    ∀ d : Date, dateLE s d = true → dateLE d e = true →
    (dateKey d, urlFor d) ∈ l := by
  intro s e
  induction s, e using generate_date_urls.induct with
  | case1 s e hle hnone =>
    intro l hgen d hsd hde
    rw [generate_date_urls_eq_none hle hnone] at hgen
    cases hgen
  | case2 s e hle next hsome ih =>
    intro l hgen d hsd hde
    rw [generate_date_urls_eq_cons hle hsome] at hgen
    rw [Option.map_eq_some'] at hgen
    obtain ⟨l', hl', hcons⟩ := hgen
    subst hcons
    have hsd' := toordinal_le_of_dateLE hsd
    by_cases heq : toordinal d = toordinal s
    · have hds : d = s := toordinal_inj heq
      subst hds
      exact List.mem_cons_self _ _
    · have hnd : dateLE next d = true := by
        rw [dateLE_iff_toordinal]
        have := toordinal_nextDay hsome
        omega
      exact List.mem_cons_of_mem _ (ih l' hl' d hnd hde)
  | case3 s e hle =>
    intro l hgen d hsd hde
    exfalso
    have h1 := toordinal_le_of_dateLE hsd
    have h2 := toordinal_le_of_dateLE hde
    exact absurd (dateLE_iff_toordinal.2 (by omega)) hle

theorem chain'_generate_date_urls : ∀ (s e : Date)
    (l : List (List Nat × List Nat)), generate_date_urls s e = some l →
    List.Chain' (fun p q : List Nat × List Nat => keyVal p.1 < keyVal q.1) l := by
  intro s e
  induction s, e using generate_date_urls.induct with
  | case1 s e hle hnone =>
    intro l hgen
    rw [generate_date_urls_eq_none hle hnone] at hgen
    cases hgen
  | case2 s e hle next hsome ih =>
    intro l hgen
    rw [generate_date_urls_eq_cons hle hsome] at hgen
    rw [Option.map_eq_some'] at hgen
    obtain ⟨l', hl', hcons⟩ := hgen
    subst hcons
    rw [List.chain'_cons']
    refine ⟨?_, ih l' hl'⟩
    intro q hq
    by_cases hle' : dateLE next e = true
    · cases hnd : nextDay next with
      | none =>
        rw [generate_date_urls_eq_none hle' hnd] at hl'
        cases hl'
      | some n2 =>
        rw [generate_date_urls_eq_cons hle' hnd] at hl'
        rw [Option.map_eq_some'] at hl'
        obtain ⟨l2, hl2, hcons2⟩ := hl'
        rw [← hcons2] at hq
        simp only [List.head?_cons, Option.mem_def, Option.some.injEq] at hq
        rw [← hq]
        exact keyVal_dateKey_lt s.year_le next.year_le
          (by rw [toordinal_nextDay hsome]; omega)
    · have hempty : generate_date_urls next e = some [] := by
        rw [generate_date_urls.eq_def, if_neg hle']
      rw [hempty] at hl'
      injection hl' with h2
      rw [← h2] at hq
      cases hq
  | case3 s e hle =>
    intro l hgen
    rw [generate_date_urls_eq_nil hle] at hgen
    injection hgen with h1
    rw [← h1]
    exact List.chain'_nil

/-- C2 (amended): for valid Python dates start ≤ end where end is not
9999-12-31 (there the loop's final `current_date += timedelta(days=1)`
raises OverflowError, see the counterexample) and with start.year ≥
1000 (below which C strftime's `%Y` zero-padding is platform-dependent,
bpo-13305), `generate_date_urls` returns a list of exactly
`(end - start).days + 1` pairs: it begins with the start date's pair,
the date keys are strictly ascending, every pair is the (key, URL) pair
of a day of the closed interval, every day of the closed interval —
both endpoints included — contributes its pair, and each URL is the
fixed template with that day's 8-digit all-digit key interpolated
exactly once. -/
theorem generate_date_urls_spec (s e : Date) (hse : dateLE s e = true)
    (hmax : e ≠ dmax) (hpad : 1000 ≤ s.year) :
    ∃ l, generate_date_urls s e = some l ∧
      l.length = (toordinal e - toordinal s) + 1 ∧
      l.head? = some (dateKey s, urlFor s) ∧
      List.Chain' (fun p q : List Nat × List Nat => keyVal p.1 < keyVal q.1) l ∧
      (∀ p ∈ l, ∃ d : Date, dateLE s d = true ∧ dateLE d e = true ∧
        p = (dateKey d, urlFor d)) ∧
      (∀ d : Date, dateLE s d = true → dateLE d e = true →
        (dateKey d, urlFor d) ∈ l) ∧
      ∀ p ∈ l, p.1.length = 8 ∧ (∀ c ∈ p.1, isAsciiDigit c = true) ∧
        p.2 = urlPrefix ++ p.1 ∧ countOccs p.1 p.2 = 1 := by
  obtain ⟨l, hl⟩ := generate_date_urls_isSome s e hmax
  refine ⟨l, hl, ?_, ?_, chain'_generate_date_urls s e l hl,
    fun p hp => mem_generate_date_urls s e l p hl hp,
    fun d h1 h2 => generate_date_urls_complete s e l hl d h1 h2, ?_⟩
  · rw [generate_date_urls_len s e l hse hl]
    have := toordinal_le_of_dateLE hse
    omega
  · cases hnd : nextDay s with
    | none =>
      exfalso
      have hs := nextDay_eq_none hnd
      have h1 := toordinal_le_of_dateLE hse
      have h2 := toordinal_le_of_dateLE (dateLE_dmax e)
      rw [hs] at h1
      exact hmax (toordinal_inj (by omega))
    | some next =>
      rw [generate_date_urls_eq_cons hse hnd] at hl
      rw [Option.map_eq_some'] at hl
      obtain ⟨l', hl', hcons⟩ := hl
      rw [← hcons]
      rfl
  · intro p hp
    obtain ⟨d, -, -, rfl⟩ := mem_generate_date_urls s e l p hl hp
    refine ⟨dateKey_length d, dateKey_digits d, rfl, ?_⟩
    exact countOccs_append_one (dateKey_ne_nil d) (dateKey_digits d)
      urlPrefix_no_digit

/-- C2 counterexample: start = end = 9999-12-31 are valid Python dates
with start ≤ end, for which the claim asserts exactly
`(end - start).days + 1 = 1` returned pairs; but after appending that
single pair the loop executes `current_date += timedelta(days=1)`,
which raises OverflowError past `datetime.MAXYEAR`, and
`generate_date_urls` has no handler, so the exception propagates and
the function returns nothing at all. -/
theorem generate_date_urls_overflow :
    dateLE dmax dmax = true ∧ toordinal dmax - toordinal dmax + 1 = 1 ∧
    generate_date_urls dmax dmax = none := by
  exact ⟨by decide, by decide,
    generate_date_urls_eq_none (by decide) (by decide)⟩

/-- Witness for the amended C2 on the concrete range
2024-02-28 .. 2024-03-01 (three days across a leap-year February). -/
theorem generate_date_urls_spec_witness :
    dateLE witnessStart witnessEnd = true ∧ witnessEnd ≠ dmax ∧
    1000 ≤ witnessStart.year ∧
    (∃ l, generate_date_urls witnessStart witnessEnd = some l ∧
      l.length = (toordinal witnessEnd - toordinal witnessStart) + 1 ∧
      l.head? = some (dateKey witnessStart, urlFor witnessStart) ∧
      List.Chain' (fun p q : List Nat × List Nat => keyVal p.1 < keyVal q.1) l ∧
      (∀ p ∈ l, ∃ d : Date, dateLE witnessStart d = true ∧
        dateLE d witnessEnd = true ∧ p = (dateKey d, urlFor d)) ∧
      (∀ d : Date, dateLE witnessStart d = true → dateLE d witnessEnd = true →
        (dateKey d, urlFor d) ∈ l) ∧
      ∀ p ∈ l, p.1.length = 8 ∧ (∀ c ∈ p.1, isAsciiDigit c = true) ∧
        p.2 = urlPrefix ++ p.1 ∧ countOccs p.1 p.2 = 1) :=
  ⟨by decide, by decide, by decide,
   generate_date_urls_spec witnessStart witnessEnd (by decide) (by decide)
     (by decide)⟩

/-! ## Theorems about the listing and article extractors -/

/-- C5: when the article-list container, its `upper` sub-container, or
the list element inside it is absent, the listing extractor returns the
empty sequence (and, being a total function on the parsed page, raises
nothing). -/
theorem get_articles_missing_container (soup : Node) (date_str : List Nat)
    (h : findArticleContainer soup = none ∨
      (∃ c, findArticleContainer soup = some c ∧ findUpperDiv c = none) ∨
      (∃ c u, findArticleContainer soup = some c ∧ findUpperDiv c = some u ∧
        findArticleList u = none)) :
    get_articles_from_listing_page (.ok soup) date_str = [] := by
  rcases h with h | ⟨c, h1, h2⟩ | ⟨c, u, h1, h2, h3⟩
  · simp only [get_articles_from_listing_page, h]
  · simp only [get_articles_from_listing_page, h1, h2]
  · simp only [get_articles_from_listing_page, h1, h2, h3]

/-- Witness for C5: a page with no article-list container yields `[]`. -/
theorem get_articles_missing_container_witness :
    findArticleContainer (Node.element (str "html") [] []) = none ∧
    get_articles_from_listing_page (.ok (Node.element (str "html") [] []))
      (str "20240101") = [] :=
  ⟨rfl, get_articles_missing_container (Node.element (str "html") [] [])
    (str "20240101") (Or.inl rfl)⟩

/-- C6 counterexample: the code absolutizes by testing
`href.startswith('http')`, not "starts with a scheme".  An href with the
scheme `ftp` is nevertheless prefixed with the site origin, so the
claimed "url is the href unchanged when the href already starts with a
scheme" fails on this page. -/
theorem get_articles_scheme_counterexample :
    startsWithScheme ftpHref = true ∧
    get_articles_from_listing_page (.ok schemeListingPage) (str "20240101") =
      [{ date := str "20240101", title := str "Cocoa rally",
         url := siteOrigin ++ ftpHref }] ∧
    siteOrigin ++ ftpHref ≠ ftpHref := by
  refine ⟨by decide, by decide, by decide⟩

/-- C6 amended: on a well-formed listing page, an item whose first
anchor carries `title` and `href` attributes is included exactly when
the title matches the keyword by case-insensitive substring search, and
the included reference's url is the href unchanged when the href starts
with the literal prefix `"http"` (not an arbitrary URI scheme),
otherwise the href prefixed with the site's fixed origin. -/
theorem get_articles_item_filter (soup container upper_div article_list : Node)
    (date_str : List Nat)
    (h1 : findArticleContainer soup = some container)
    (h2 : findUpperDiv container = some upper_div)
    (h3 : findArticleList upper_div = some article_list) :
    (∀ item ∈ findAll article_list (fun n => hasTag n (str "li")),
      ∀ link, findFirst item (fun n => hasTag n (str "a")) = some link →
      ∀ href title, getAttr link (str "href") = some href →
        getAttr link (str "title") = some title →
        titleMatches title = true →
        ({ date := date_str, title := title,
           url := if (str "http").isPrefixOf href then href
                  else siteOrigin ++ href } : ArticleRef) ∈
          get_articles_from_listing_page (.ok soup) date_str) ∧
    (∀ ref ∈ get_articles_from_listing_page (.ok soup) date_str,
      ∃ item ∈ findAll article_list (fun n => hasTag n (str "li")),
      ∃ link, findFirst item (fun n => hasTag n (str "a")) = some link ∧
      ∃ href title, getAttr link (str "href") = some href ∧
        getAttr link (str "title") = some title ∧ titleMatches title = true ∧
        ref = { date := date_str, title := title,
                url := if (str "http").isPrefixOf href then href
                       else siteOrigin ++ href }) := by
  constructor
  · intro item hitem link hlink href title hhref htitle hmatch
    simp only [get_articles_from_listing_page, h1, h2, h3]
    rw [List.mem_filterMap]
    refine ⟨item, hitem, ?_⟩
    simp only [itemToRef, hlink, hhref, htitle, hmatch, if_true]
  · intro ref hrefmem
    simp only [get_articles_from_listing_page, h1, h2, h3] at hrefmem
    rw [List.mem_filterMap] at hrefmem
    obtain ⟨item, hitem, hitr⟩ := hrefmem
    refine ⟨item, hitem, ?_⟩
    cases hl : findFirst item (fun n => hasTag n (str "a")) with
    | none => simp [itemToRef, hl] at hitr
    | some link =>
      refine ⟨link, rfl, ?_⟩
      cases hh : getAttr link (str "href") with
      | none => simp [itemToRef, hl, hh] at hitr
      | some href =>
        cases ht : getAttr link (str "title") with
        | none => simp [itemToRef, hl, hh, ht] at hitr
        | some title =>
          by_cases hm : titleMatches title = true
          · refine ⟨href, title, rfl, rfl, hm, ?_⟩
            simp only [itemToRef, hl, hh, ht, hm, if_true,
              Option.some.injEq] at hitr
            exact hitr.symm
          · simp [itemToRef, hl, hh, ht, hm] at hitr

/-- Witness for the amended C6: the spec scenario page (one matching,
one non-matching item, relative href). -/
theorem get_articles_item_filter_witness :
    findArticleContainer wfListingPage = some wfContainer ∧
    titleMatches (str "X Cocoa Prices Rise") = true ∧
    ({ date := str "20240101", title := str "X Cocoa Prices Rise",
       url := siteOrigin ++ str "/news/a1" } : ArticleRef) ∈
      get_articles_from_listing_page (.ok wfListingPage) (str "20240101") ∧
    get_articles_from_listing_page (.ok wfListingPage) (str "20240101") =
      [{ date := str "20240101", title := str "X Cocoa Prices Rise",
         url := siteOrigin ++ str "/news/a1" }] := by
  refine ⟨rfl, by decide, ?_, by decide⟩
  exact (get_articles_item_filter wfListingPage wfContainer wfUpper wfUl
    (str "20240101") rfl rfl rfl).1 wfItem1 (by decide) wfAnchor1 rfl
    (str "/news/a1") (str "X Cocoa Prices Rise") rfl rfl (by decide)

/-- C7: when the primary named paragraph is absent but the named
content-area container is present with at least one paragraph element,
the article content becomes the paragraphs' individually trimmed texts
joined with single spaces. -/
theorem get_article_content_fallback (soup d : Node) (a : ArticleRecord)
    (h1 : findFirst soup (fun n => hasTag n (str "p") &&
        getAttr n (str "id") == some (str "article-123")) = none)
    (h2 : findFirst soup (fun n => hasTag n (str "div") &&
        classMatches n (str "article-content-area")) = some d)
    (h3 : findAll d (fun n => hasTag n (str "p")) ≠ []) :
    get_article_content (.ok soup) a =
      { a with content :=
          joinSpace ((findAll d (fun n => hasTag n (str "p"))).map getTextStrip) } := by
  simp only [get_article_content, h1, h2]
  cases hps : findAll d (fun n => hasTag n (str "p")) with
  | nil => exact absurd hps h3
  | cons p0 ps => rfl

/-- Witness for C7 on a concrete page whose content area holds two
paragraphs, one nested one level deeper. -/
theorem get_article_content_fallback_witness :
    findFirst fbArticlePage (fun n => hasTag n (str "p") &&
        getAttr n (str "id") == some (str "article-123")) = none ∧
    findFirst fbArticlePage (fun n => hasTag n (str "div") &&
        classMatches n (str "article-content-area")) = some fbDiv ∧
    findAll fbDiv (fun n => hasTag n (str "p")) ≠ [] ∧
    get_article_content (.ok fbArticlePage)
        ⟨str "20240101", str "T", str "U", []⟩ =
      { date := str "20240101", title := str "T", url := str "U",
        content := str "Para one. Para two." } := by
  refine ⟨rfl, rfl, by decide, ?_⟩
  have h := get_article_content_fallback fbArticlePage fbDiv
    ⟨str "20240101", str "T", str "U", []⟩ rfl rfl (by decide)
  rw [h]
  decide

/-- C8: when the fetch/parse of an article raises, the exception is
caught and the reference is returned with its content set to an
error-description string embedding the exception message; the other
fields are untouched and no exception escapes (the function is total). -/
theorem get_article_content_error (e : List Nat) (a : ArticleRecord) :
    get_article_content (.error e) a =
      { a with content := str "Error: " ++ e } := rfl

/-! ## Lemmas and theorems about the DataFrame stage -/

theorem heapGet_set_ne {α : Type} (h : List (DataFrame α)) (r' : Nat) (d : DataFrame α)
    (r : Nat) (hne : r' ≠ r) : heapGet (heapSet h r' d) r = heapGet h r := by
  unfold heapGet heapSet
  rw [List.getD_eq_getElem?_getD, List.getD_eq_getElem?_getD,
    List.getElem?_set_ne hne]

theorem heapGet_set_self {α : Type} (h : List (DataFrame α)) (r : Nat) (d : DataFrame α)
    (hr : r < h.length) : heapGet (heapSet h r d) r = d := by
  unfold heapGet heapSet
  rw [List.getD_eq_getElem?_getD, List.getElem?_set_self hr]
  rfl

theorem heapGet_append_lt {α : Type} (h : List (DataFrame α)) (d : DataFrame α) (r : Nat)
    (hr : r < h.length) : heapGet (h ++ [d]) r = heapGet h r := by
  unfold heapGet
  rw [List.getD_eq_getElem?_getD, List.getD_eq_getElem?_getD,
    List.getElem?_append_left hr]

theorem heapGet_append_self {α : Type} (h : List (DataFrame α)) (d : DataFrame α) :
    heapGet (h ++ [d]) h.length = d := by
  unfold heapGet
  rw [List.getD_eq_getElem?_getD, List.getElem?_append_right (le_refl _)]
  simp

/-- C10: `clean_dataframe_add_sentiment` never mutates the DataFrame
object passed to it — all cleaning, filtering and the sentiment column
land on the copy made on line 147 (and on the new objects of lines 159
and 162), so the caller's object is unchanged on the final heap. -/
theorem clean_dataframe_no_mutation {α : Type} (nfkd : List Nat → List Nat)
    (polarity : List Nat → α) (h : List (DataFrame α)) (df : Nat) (hdf : df < h.length) :
    heapGet (clean_dataframe_add_sentiment nfkd polarity h df).1 df =
      heapGet h df := by
  simp only [clean_dataframe_add_sentiment, pdCopy, pdApplyTitle, pdApplyContent,
    pdAddSentiment, heapAlloc]
  rw [heapGet_set_ne, heapGet_append_lt, heapGet_append_lt, heapGet_set_ne,
    heapGet_set_ne, heapGet_append_lt _ _ _ hdf]
  all_goals
    try simp only [heapSet, List.length_set, List.length_append,
      List.length_cons, List.length_nil]
  all_goals omega

theorem filter_zip_snd {α : Type} (p : PdRow α → Bool) :
    ∀ (idx : List Nat) (rows : List (PdRow α)), idx.length = rows.length →
      ((idx.zip rows).filter (fun q => p q.2)).map Prod.snd = rows.filter p := by
  intro idx
  induction idx with
  | nil =>
    intro rows hlen
    cases rows with
    | nil => rfl
    | cons r rt => cases hlen
  | cons i it ih =>
    intro rows hlen
    cases rows with
    | nil => cases hlen
    | cons r rt =>
      simp only [List.zip_cons_cons, List.filter_cons]
      by_cases hp : p r = true
      · simp only [hp, if_true, List.map_cons]
        rw [ih rt (by simpa using hlen)]
      · simp only [hp, Bool.false_eq_true, if_false]
        rw [ih rt (by simpa using hlen)]

/-- C9: the frame returned by `clean_dataframe_add_sentiment` consists
exactly of the cleaned input rows whose cleaned content is non-empty
after stripping, each given a sentiment score; its index is renumbered
from 0; no row with empty stripped content survives, every surviving
row carries a score computed from its cleaned content; and the driver's
export is the projection of this frame onto (date, sentiment_score).
The hypothesis is the driver's invariant that index and rows align. -/
theorem clean_dataframe_result {α : Type} (nfkd : List Nat → List Nat)
    (polarity : List Nat → α) (h : List (DataFrame α)) (df : Nat)
    (hwf : (heapGet h df).index.length = (heapGet h df).rows.length) :
    ∀ res : DataFrame α,
      res = heapGet (clean_dataframe_add_sentiment nfkd polarity h df).1
        (clean_dataframe_add_sentiment nfkd polarity h df).2 →
      res.rows = (((heapGet h df).rows.map (cleanRow nfkd)).filter
          (fun row => !(pyStrip row.content == []))).map (scoreRow polarity) ∧
      res.index = List.range res.rows.length ∧
      (∀ row ∈ res.rows, pyStrip row.content ≠ [] ∧
        row.sentiment_score = some (polarity row.content)) ∧
      exportProjection res = res.rows.map (fun row => (row.date, row.sentiment_score)) := by
  intro res hres
  simp only [clean_dataframe_add_sentiment, pdCopy, heapAlloc] at hres
  rw [heapGet_append_self] at hres
  have e2 : heapGet
      (pdApplyTitle (fun s => clean_text nfkd (.pyStr s)) (h ++ [heapGet h df])
        h.length) h.length =
      { heapGet h df with
        rows := (heapGet h df).rows.map
          (fun row => { row with title := clean_text nfkd (.pyStr row.title) }) } := by
    unfold pdApplyTitle
    rw [heapGet_set_self, heapGet_append_self]
    simp only [List.length_append, List.length_cons, List.length_nil]
    omega
  have e3 : heapGet
      (pdApplyContent (fun s => clean_text nfkd (.pyStr s))
        (pdApplyTitle (fun s => clean_text nfkd (.pyStr s)) (h ++ [heapGet h df])
          h.length) h.length) h.length =
      { heapGet h df with
        rows := (heapGet h df).rows.map (cleanRow nfkd) } := by
    unfold pdApplyContent
    rw [heapGet_set_self, e2]
    · simp only [List.map_map]
      rfl
    · unfold pdApplyTitle heapSet
      simp only [List.length_set, List.length_append, List.length_cons,
        List.length_nil]
      omega
  rw [e3] at hres
  unfold pdAddSentiment at hres
  rw [heapGet_set_self] at hres
  · rw [heapGet_append_self] at hres
    unfold pdResetIndex pdFilterContent at hres
    simp only at hres
    rw [filter_zip_snd (fun row => !(pyStrip row.content == []))
      (heapGet h df).index ((heapGet h df).rows.map (cleanRow nfkd))
      (by simp only [List.length_map]; exact hwf)] at hres
    subst hres
    refine ⟨rfl, ?_, ?_, rfl⟩
    · simp only [List.length_map]
    · intro row hrow
      simp only [List.mem_map] at hrow
      obtain ⟨row', hrow', rfl⟩ := hrow
      rw [List.mem_filter] at hrow'
      have hcond := hrow'.2
      simp only [Bool.not_eq_eq_eq_not, Bool.not_true, beq_eq_false_iff_ne,
        ne_eq] at hcond
      constructor
      · exact hcond
      · rfl
  · simp only [List.length_append, List.length_cons, List.length_nil]
    omega

/-- Witness for C9 on a concrete one-heap, two-row frame whose second
row's content cleans to the empty string: the conclusion holds at the
result frame, which retains exactly one row. -/
theorem clean_dataframe_result_witness :
    (heapGet [dfFixture] 0).index.length = (heapGet [dfFixture] 0).rows.length ∧
    (heapGet (clean_dataframe_add_sentiment id (fun _ => (0 : Int)) [dfFixture] 0).1
        (clean_dataframe_add_sentiment id (fun _ => (0 : Int)) [dfFixture] 0).2).rows.length = 1 ∧
    ((heapGet (clean_dataframe_add_sentiment id (fun _ => (0 : Int)) [dfFixture] 0).1
        (clean_dataframe_add_sentiment id (fun _ => (0 : Int)) [dfFixture] 0).2).rows =
      (((heapGet [dfFixture] 0).rows.map (cleanRow id)).filter
          (fun row => !(pyStrip row.content == []))).map (scoreRow (fun _ => (0 : Int))) ∧
      (heapGet (clean_dataframe_add_sentiment id (fun _ => (0 : Int)) [dfFixture] 0).1
        (clean_dataframe_add_sentiment id (fun _ => (0 : Int)) [dfFixture] 0).2).index =
        List.range (heapGet (clean_dataframe_add_sentiment id (fun _ => (0 : Int)) [dfFixture] 0).1
          (clean_dataframe_add_sentiment id (fun _ => (0 : Int)) [dfFixture] 0).2).rows.length ∧
      (∀ row ∈ (heapGet (clean_dataframe_add_sentiment id (fun _ => (0 : Int)) [dfFixture] 0).1
          (clean_dataframe_add_sentiment id (fun _ => (0 : Int)) [dfFixture] 0).2).rows,
        pyStrip row.content ≠ [] ∧ row.sentiment_score = some ((fun _ => (0 : Int)) row.content)) ∧
      exportProjection (heapGet (clean_dataframe_add_sentiment id (fun _ => (0 : Int)) [dfFixture] 0).1
          (clean_dataframe_add_sentiment id (fun _ => (0 : Int)) [dfFixture] 0).2) =
        (heapGet (clean_dataframe_add_sentiment id (fun _ => (0 : Int)) [dfFixture] 0).1
          (clean_dataframe_add_sentiment id (fun _ => (0 : Int)) [dfFixture] 0).2).rows.map
          (fun row => (row.date, row.sentiment_score))) :=
  ⟨by decide, by decide,
   clean_dataframe_result id (fun _ => (0 : Int)) [dfFixture] 0 (by decide) _ rfl⟩

/-- Witness for C10 on the same concrete heap: the caller's frame is
untouched. -/
theorem clean_dataframe_no_mutation_witness :
    (0 : Nat) < ([dfFixture] : List (DataFrame Int)).length ∧
    heapGet (clean_dataframe_add_sentiment id (fun _ => (0 : Int)) [dfFixture] 0).1 0 =
      heapGet [dfFixture] 0 :=
  ⟨by decide, clean_dataframe_no_mutation id (fun _ => (0 : Int)) [dfFixture] 0 (by decide)⟩
